import Mathlib

/-!
Verification of the LiteCore revision-tree store, sequence set, and blob store
against their natural-language specification.

The definitions below are a shallow embedding of the C++ sources:
  * `src/LiteCore/RevTrees/RevTree.cc`  (revision trees: insert, insertHistory,
    prune, purge, compact, sort, hasConflict, checkForResolvedConflict)
  * `src/unnamed/part_002` (SequenceSet.hh)
  * `src/unnamed/part_003` (BlobStore.hh; the implementation file BlobStore.cc
    is absent from the sources, so the blob store is modelled from the spec)

C++ revisions are heap objects addressed by pointer; the embedding gives every
revision a stable numeric identity `selfId` and represents the tree's `_revs`
vector as a `List Rev` in the same order.  Pointer dereference becomes lookup
by `selfId`.  Flag bitsets become records of `Bool`s.  Unbounded parent-chain
walks become fuel-bounded recursion; well-formedness hypotheses (parent links
resolve, with generation decreasing by one) make the fuel adequate.
-/

namespace LiteCore

/-- A parsed revision ID: generation number plus opaque digest tail.
Modelled from the spec (RevID.cc is not among the sources): generations
compare numerically, equal-generation IDs compare lexicographically on the
tail. -/
structure RevID where
  gen : Nat
  digest : List Nat
deriving DecidableEq, Repr

/-- Lexicographic comparison of byte strings (slice comparison). -/
def listLT : List Nat → List Nat → Bool
  | [], [] => false
  | [], _ :: _ => true
  | _ :: _, [] => false
  | a :: as, b :: bs => if a < b then true else if b < a then false else listLT as bs

/-- Modelled from the spec: `revid::operator<`.  Generations compare
numerically; equal-generation IDs compare lexicographically on the tail. -/
def revidLT (a b : RevID) : Bool :=
  if a.gen = b.gen then listLT a.digest b.digest else decide (a.gen < b.gen)

/-- The flag bits of `Rev::Flags` (kLeaf, kDeleted, kHasAttachments, kNew,
kKeepBody, kForeign, kIsConflict, kPurge) as a record of booleans. -/
structure RFlags where
  deleted : Bool := false
  hasAttachments : Bool := false
  keepBody : Bool := false
  foreign : Bool := false
  leafF : Bool := false
  newF : Bool := false
  conflictF : Bool := false
  purgeF : Bool := false
deriving DecidableEq, Repr

/-- One revision node (`Rev`).  `selfId` stands for the node's identity
(its address in the C++ arena); `parent` holds the parent's `selfId`. -/
structure Rev where
  selfId : Nat
  revID : RevID
  body : List Nat
  seq : Nat
  leaf : Bool
  deleted : Bool
  hasAttachments : Bool
  isNew : Bool
  keepBody : Bool
  foreign : Bool
  isConflict : Bool
  markedForPurge : Bool
  parent : Option Nat
deriving DecidableEq, Repr

/-- `Rev::isActive()`: a leaf that is not a deletion (RevTree.hh is summarised
in the spec as `isActive(R) ≡ Leaf(R) ∧ ¬Deleted(R)`). -/
def Rev.isActive (r : Rev) : Bool := r.leaf && !r.deleted

/-- The revision tree: the `_revs` vector plus the `_sorted` and `_changed`
bookkeeping bits. -/
structure RevTree where
  revs : List Rev
  sorted : Bool
  changed : Bool
deriving DecidableEq, Repr

/-- `RevTree::get(revid)`: linear scan for a revision with the given ID. -/
def getByRevID (t : RevTree) (rid : RevID) : Option Rev :=
  t.revs.find? (fun r => r.revID == rid)

/-- Pointer dereference: find the revision with the given identity. -/
def getById (t : RevTree) (i : Nat) : Option Rev :=
  t.revs.find? (fun r => r.selfId == i)

/-- Mutate the revision with the given identity in place. -/
def updateRev (t : RevTree) (i : Nat) (f : Rev → Rev) : RevTree :=
  { t with revs := t.revs.map (fun r => if r.selfId == i then f r else r) }

/-- A fresh identity for a newly allocated revision. -/
def freshId (t : RevTree) : Nat :=
  (t.revs.map (fun r => r.selfId)).foldr max 0 + 1

/-- Walk the parent chain starting at the revision with identity `i`,
collecting identities (the revision itself first, root last).  Fuel-bounded;
with fuel at least the number of revisions and well-formed parent links the
walk is complete. -/
def chainFrom (t : RevTree) : Nat → Option Nat → List Nat
  | _, none => []
  | 0, some _ => []
  | fuel + 1, some i =>
    match getById t i with
    | none => []
    | some r => i :: chainFrom t fuel r.parent

/-- Interpret a C++ `bool` as the integer it converts to. -/
def bInt (b : Bool) : Int := if b then 1 else 0

/-- `compareRevs` (RevTree.cc): the descending sort comparator.  Returns true
if `r1` is higher priority than `r2`. -/
def compareRevs (r1 r2 : Rev) : Bool :=
  -- Leaf revs go before non-leaves.
  let d1 : Int := bInt r2.leaf - bInt r1.leaf
  if d1 ≠ 0 then decide (d1 < 0)
  else
    -- Live revs go before deletions.
    let d2 : Int := bInt r1.deleted - bInt r2.deleted
    if d2 ≠ 0 then decide (d2 < 0)
    else
      -- Conflicting revs never go first.
      let d3 : Int := bInt r1.isConflict - bInt r2.isConflict
      if d3 ≠ 0 then decide (d3 < 0)
      else
        -- Otherwise compare rev IDs, with higher rev ID going first.
        revidLT r2.revID r1.revID

/-- The non-strict version of the comparator used as a sorting relation:
`r1` may come before `r2` iff `r2` does not beat `r1`. -/
def revLE (r1 r2 : Rev) : Bool := !compareRevs r2 r1

/-- Clear the `kIsConflict` flag on the revisions with the given identities. -/
def clearConflictFlags (t : RevTree) (ids : List Nat) : RevTree :=
  { t with revs := t.revs.map (fun r =>
      if r.selfId ∈ ids then { r with isConflict := false } else r) }

/-- `RevTree::checkForResolvedConflict`: if the tree is sorted, non-empty and
its first revision is flagged as a conflict, remove the conflict marker from
that revision's whole lineage. -/
def checkForResolvedConflict (t : RevTree) : RevTree :=
  match t.revs.head? with
  | none => t
  | some r0 =>
    if t.sorted && r0.isConflict then
      clearConflictFlags t (chainFrom t t.revs.length (some r0.selfId))
    else t

/-- `RevTree::sort`: no-op when already sorted, otherwise sort descending by
`compareRevs` and re-check for a resolved conflict. -/
def RevTree.sortTree (t : RevTree) : RevTree :=
  if t.sorted then t
  else checkForResolvedConflict { t with revs := t.revs.mergeSort revLE, sorted := true }

/-- The counting loop inside `RevTree::hasConflict`: scan for more than one
active revision, with `n` actives already seen. -/
def activeScan : List Rev → Nat → Bool
  | [], _ => false
  | r :: rest, n =>
    if r.isActive then
      if n + 1 > 1 then true else activeScan rest (n + 1)
    else activeScan rest n

/-- `RevTree::hasConflict`: trees of fewer than two revisions have no
conflict; a sorted tree checks whether the revision at index 1 is active;
otherwise count the active revisions. -/
def RevTree.hasConflict (t : RevTree) : Bool :=
  if t.revs.length < 2 then false
  else if t.sorted then
    match t.revs with
    | _ :: r1 :: _ => r1.isActive
    | _ => false
  else activeScan t.revs 0

/-- The ancestors whose `kKeepBody` flag the insertion loop clears: walk from
the parent and stop (before clearing) at the first ancestor that is not
flagged as a conflict, when the new revision extends a conflict branch. -/
def kbClearChain (t : RevTree) (conflict : Bool) : Nat → Option Nat → List Nat
  | _, none => []
  | 0, some _ => []
  | fuel + 1, some i =>
    match getById t i with
    | none => []
    | some a =>
      if conflict && !a.isConflict then []
      else i :: kbClearChain t conflict fuel a.parent

/-- Clear the `kKeepBody` flag on the revisions with the given identities. -/
def clearKeepBodyOn (t : RevTree) (ids : List Nat) : RevTree :=
  { t with revs := t.revs.map (fun r =>
      if r.selfId ∈ ids then { r with keepBody := false } else r) }

/-- `RevTree::_insert`: the lowest-level insert.  Does no sanity checking and
always appends a new revision, masking the supplied flags to
{Deleted, HasAttachments, KeepBody, Foreign} and adding {Leaf, New}.
Returns the mutated tree together with the new revision's identity. -/
def RevTree.insertLow (t : RevTree) (rid : RevID) (body : List Nat)
    (parentId : Option Nat) (rf : RFlags) : RevTree × Nat :=
  let nid := freshId t
  let baseRev : Rev :=
    { selfId := nid, revID := rid, body := body, seq := 0,
      leaf := true, deleted := rf.deleted, hasAttachments := rf.hasAttachments,
      isNew := true, keepBody := rf.keepBody, foreign := rf.foreign,
      isConflict := false, markedForPurge := false, parent := parentId }
  match parentId with
  | some pid =>
    match getById t pid with
    | some p =>
      let conflict := !p.leaf || p.isConflict
      let newRev := if conflict then { baseRev with isConflict := true } else baseRev
      let t1 := updateRev t pid (fun r => { r with leaf := false })
      let t2 := if rf.keepBody then
          clearKeepBodyOn t1 (kbClearChain t conflict (t.revs.length + 1) (some pid))
        else t1
      ({ t2 with revs := t2.revs ++ [newRev],
                 changed := true, sorted := t.revs.isEmpty && t.sorted }, nid)
    | none =>
      -- A dangling parent pointer is outside the source's contract
      -- (the C++ code would dereference it); append the node unchanged.
      ({ t with revs := t.revs ++ [baseRev],
                changed := true, sorted := t.revs.isEmpty && t.sorted }, nid)
  | none =>
    -- Root revision: appending a second root creates a conflict.
    let newRev := if t.revs.isEmpty then baseRev else { baseRev with isConflict := true }
    ({ t with revs := t.revs ++ [newRev],
              changed := true, sorted := t.revs.isEmpty && t.sorted }, nid)

/-- `RevTree::insert` (pointer-parent overload; a `some` parent stands for a
pointer to the revision with that identity).  Returns the new revision's
identity (or `none` on rejection), the HTTP status, and the tree. -/
def RevTree.insert (t : RevTree) (rid : RevID) (body : List Nat) (rf : RFlags)
    (parentId : Option Nat) (allowConflict : Bool) : Option Nat × Nat × RevTree :=
  if rid.gen = 0 then (none, 400, t)
  else if (getByRevID t rid).isSome then (none, 200, t)
  else
    match parentId with
    | some pid =>
      match getById t pid with
      | none => (none, 404, t)
      | some p =>
        if !allowConflict && !p.leaf then (none, 409, t)
        else if rid.gen ≠ p.revID.gen + 1 then (none, 400, t)
        else
          let ins := t.insertLow rid body (some pid) rf
          (some ins.2, if rf.deleted then 200 else 201, ins.1)
    | none =>
      if !allowConflict && !t.revs.isEmpty then (none, 409, t)
      else if rid.gen ≠ 1 then (none, 400, t)
      else
        let ins := t.insertLow rid body none rf
        (some ins.2, if rf.deleted then 200 else 201, ins.1)

/-- The scanning loop of `RevTree::insertHistory`: find the first history
entry already present, preflighting generation numbers along the way.
Returns `none` on malformed input, otherwise the common-ancestor index
(starting from `i`) and the identity of the found revision (or `none` when
the whole history is new). -/
def scanHistory (t : RevTree) : List RevID → Nat → Nat → Option (Nat × Option Nat)
  | [], i, _ => some (i, none)
  | rid :: rest, i, lastGen =>
    if lastGen > 0 ∧ rid.gen ≠ lastGen - 1 then none
    else
      match getByRevID t rid with
      | some r => some (i, some r.selfId)
      | none => scanHistory t rest (i + 1) rid.gen

/-- Insert a run of body-less ancestor revisions in order, each becoming the
parent of the next.  Returns the tree and the identity of the last one. -/
def insertAncestors (t : RevTree) (rids : List RevID) (parentId : Option Nat)
    (af : RFlags) : RevTree × Option Nat :=
  match rids with
  | [] => (t, parentId)
  | rid :: rest =>
    let ins := t.insertLow rid [] parentId af
    insertAncestors ins.1 rest (some ins.2) af

/-- `RevTree::insertHistory`: `history` is newest-first.  Returns the index
of the common ancestor (or `history.length` when none was found, or `-1` on
malformed generation numbers) together with the mutated tree. -/
def RevTree.insertHistory (t : RevTree) (history : List RevID) (body : List Nat)
    (rf : RFlags) : Int × RevTree :=
  match scanHistory t history 0 0 with
  | none => (-1, t)
  | some (i, pid) =>
    match history with
    | [] => ((i : Int), t)
    | h0 :: _ =>
      if 0 < i then
        let af : RFlags := { foreign := rf.foreign }
        let step := insertAncestors t ((history.take i).drop 1).reverse pid af
        (((i : Int)), (step.1.insertLow h0 body step.2 rf).1)
      else ((i : Int), t)

/-- `RevTree::compact`: drop the revisions marked for purge, preserving the
relative order of the survivors. -/
def compact (t : RevTree) : RevTree :=
  { t with revs := t.revs.filter (fun r => !r.markedForPurge), changed := true }

/-- The revisions the marking pass of `RevTree::prune` walks: every revision
when the tree is unsorted, otherwise only the leading run of leaves. -/
def pruneWalked (t : RevTree) : List Rev :=
  if t.sorted then t.revs.takeWhile (fun r => r.leaf)
  else t.revs.filter (fun r => r.leaf)

/-- The marking events of `RevTree::prune`: for each walked leaf, the part of
its ancestor chain deeper than `maxDepth`.  One identity may occur several
times (once per leaf whose chain reaches it). -/
def pruneMarkEvents (t : RevTree) (maxDepth : Nat) : List Nat :=
  ((pruneWalked t).map
    (fun r => (chainFrom t t.revs.length (some r.selfId)).drop maxDepth)).flatten

/-- Pointwise form of the first pass of `prune`: set the markedForPurge flag
on a revision whose identity is listed. -/
def markFn (ids : List Nat) (r : Rev) : Rev :=
  if r.selfId ∈ ids then { r with markedForPurge := true } else r

/-- The first pass of `prune`: set the markedForPurge flag on the listed
revisions. -/
def markTree (t : RevTree) (ids : List Nat) : RevTree :=
  { t with revs := t.revs.map (markFn ids) }

/-- Pointwise form of the second pass of `prune`: clear a parent link that
points at a revision of `t` marked for purge. -/
def clearFn (t : RevTree) (r : Rev) : Rev :=
  match r.parent with
  | some pid =>
    if ((getById t pid).map (fun p : Rev => p.markedForPurge)).getD false
    then { r with parent := none } else r
  | none => r

/-- The second pass of `prune`: clear parent links that point at revisions
marked for purge. -/
def clearPurgedParents (t : RevTree) : RevTree :=
  { t with revs := t.revs.map (clearFn t) }

/-- `RevTree::prune`: mark every ancestor lying deeper than `maxDepth` below
some leaf, clear parent links that point at marked revisions, compact, and
return the number of marking events. -/
def RevTree.prune (t : RevTree) (maxDepth : Nat) : Nat × RevTree :=
  if t.revs.length ≤ maxDepth then (0, t)
  else
    let marks := pruneMarkEvents t maxDepth
    if marks.length = 0 then (0, t)
    else (marks.length, compact (clearPurgedParents (markTree t marks)))

/-- The loop body of `RevTree::purge`: mark the revision and unlink it from
its parent; continue with the parent while `confirmLeaf` promotes it (no
other revision still references it). -/
def purgeStep (t : RevTree) : Nat → Nat → Nat × RevTree
  | 0, i =>
    (1, updateRev t i (fun r => { r with markedForPurge := true, parent := none }))
  | fuel + 1, i =>
    let t1 := updateRev t i (fun r => { r with markedForPurge := true, parent := none })
    match ((getById t i).map (fun r => r.parent)).getD none with
    | none => (1, t1)
    | some pid =>
      if t1.revs.any (fun r => r.parent == some pid) then (1, t1)
      else
        let t2 := updateRev t1 pid (fun r => { r with leaf := true })
        let rec2 := purgeStep t2 fuel pid
        (rec2.1 + 1, rec2.2)

/-- `RevTree::purge(leafID)`: remove the named leaf and each now-orphaned
ancestor, compact, and re-check for a resolved conflict.  Returns the count
of purged revisions and the tree. -/
def RevTree.purge (t : RevTree) (leafID : RevID) : Nat × RevTree :=
  match getByRevID t leafID with
  | none => (0, t)
  | some r =>
    if !r.leaf then (0, t)
    else
      let step := purgeStep t t.revs.length r.selfId
      (step.1, checkForResolvedConflict (compact step.2))

/-! ### SequenceSet (src/unnamed/part_002) -/

/-- `SequenceSet`: an ordered set of sequences plus the high-water mark
`_max`.  `std::set` is modelled as a `Finset`; iteration order is its
numeric order, so `*begin()` is the minimum. -/
structure SequenceSet where
  sequences : Finset Nat
  maxv : Nat
deriving DecidableEq

/-- A default-constructed `SequenceSet`. -/
def SequenceSet.init : SequenceSet := { sequences := ∅, maxv := 0 }

/-- `SequenceSet::clear(max)`: empty the set and reset `maxEver` to `max`. -/
def SequenceSet.clear (_s : SequenceSet) (m : Nat) : SequenceSet :=
  { sequences := ∅, maxv := m }

/-- `SequenceSet::first()`: the lowest sequence, or 0 when empty. -/
def SequenceSet.first (s : SequenceSet) : Nat :=
  if h : s.sequences.Nonempty then s.sequences.min' h else 0

/-- `SequenceSet::maxEver()`. -/
def SequenceSet.maxEver (s : SequenceSet) : Nat := s.maxv

/-- `SequenceSet::add(s)`: insert and raise the high-water mark. -/
def SequenceSet.add (s : SequenceSet) (x : Nat) : SequenceSet :=
  { sequences := insert x s.sequences, maxv := max s.maxv x }

/-- `SequenceSet::remove(s)`. -/
def SequenceSet.remove (s : SequenceSet) (x : Nat) : SequenceSet :=
  { s with sequences := s.sequences.erase x }

/-- `SequenceSet::set(s, present)`. -/
def SequenceSet.set (s : SequenceSet) (x : Nat) (present : Bool) : SequenceSet :=
  if present then s.add x else s.remove x

/-- The operations of the `SequenceSet` interface. -/
inductive SeqOp where
  | add (x : Nat)
  | remove (x : Nat)
  | set (x : Nat) (present : Bool)
  | clear (m : Nat)
deriving DecidableEq, Repr

/-- Apply one operation. -/
def seqStep (s : SequenceSet) : SeqOp → SequenceSet
  | .add x => s.add x
  | .remove x => s.remove x
  | .set x p => s.set x p
  | .clear m => s.clear m

/-- Run a whole operation sequence from a default-constructed set. -/
def seqRun (ops : List SeqOp) : SequenceSet :=
  ops.foldl seqStep SequenceSet.init

/-- Specification side: the value `maxEver` should have after running `ops`
starting from high-water mark `m`: the maximum of `m` and every value added
since the most recent clear (a clear resets it to its argument). -/
def specMaxEver (m : Nat) : List SeqOp → Nat
  | [] => m
  | .add x :: rest => specMaxEver (max m x) rest
  | .remove _ :: rest => specMaxEver m rest
  | .set x p :: rest => specMaxEver (if p then max m x else m) rest
  | .clear c :: rest => specMaxEver c rest

/-! ### Blob store (src/unnamed/part_003)

Modelled from the spec: `BlobStore.cc` is not among the sources (only the
header `BlobStore.hh` is), so `put` and `get` are modelled from §4.B of the
spec: `put(bytes)` writes the content under the file name derived from its
SHA-1 digest, discarding the write when the destination already exists;
`get(key).contents` reads the file stored under the key.  The digest function
is a parameter of the model. -/

/-- The blob directory: one entry per file, keyed by digest. -/
structure BlobStoreM where
  files : List (List Nat × List Nat)
deriving DecidableEq

/-- Modelled from the spec: `get(key).contents` — the content of the file
named after `key`, if it exists. -/
def blobGet (st : BlobStoreM) (k : List Nat) : Option (List Nat) :=
  (st.files.find? (fun e => e.1 == k)).map (fun e => e.2)

/-- Modelled from the spec: `put(bytes)` — compute the key as the digest of
the content; if the destination file already exists, discard the write and
return the existing key, otherwise install the new file.  Returns the key
and the store. -/
def blobPut (digest : List Nat → List Nat) (st : BlobStoreM) (b : List Nat) :
    List Nat × BlobStoreM :=
  let k := digest b
  if (blobGet st k).isSome then (k, st)
  else (k, { files := (k, b) :: st.files })

/-- How many files the store holds under the given key. -/
def blobCount (st : BlobStoreM) (k : List Nat) : Nat :=
  st.files.countP (fun e => e.1 == k)

/-! ### Specification-side notions for the revision-tree claims -/

/-- The winning-revision order as the spec words it: the descending
lexicographic tuple (isLeaf, not isDeleted, not isConflict, revID).
`revTupleGT r1 r2` holds when `r1`'s tuple is strictly greater. -/
def revTupleGT (r1 r2 : Rev) : Bool :=
  if r1.leaf ≠ r2.leaf then r1.leaf && !r2.leaf
  else if r1.deleted ≠ r2.deleted then !r1.deleted && r2.deleted
  else if r1.isConflict ≠ r2.isConflict then !r1.isConflict && r2.isConflict
  else revidLT r2.revID r1.revID

/-- A numeric rank for the flag part of the winning order: smaller ranks sort
first (leaves before non-leaves, live before deleted, non-conflict before
conflict). -/
def rank (r : Rev) : Nat :=
  (if r.leaf then 0 else 4) + (if r.deleted then 2 else 0) + (if r.isConflict then 1 else 0)

/-- `pid`'s only child is `childId`: no other revision references `pid`. -/
def onlyChildOf (t : RevTree) (childId pid : Nat) : Bool :=
  t.revs.all (fun r => r.parent ≠ some pid ∨ r.selfId = childId)

/-- Specification side of `purge`: the chain of revisions it removes — the
leaf, then each ancestor whose only child was the previously removed
revision, stopping at the first still-referenced ancestor. -/
def specPurgeChain (t : RevTree) : Nat → Nat → List Nat
  | 0, i => [i]
  | fuel + 1, i =>
    i :: (match ((getById t i).map (fun r => r.parent)).getD none with
      | none => []
      | some pid =>
        if onlyChildOf t i pid then specPurgeChain t fuel pid else [])

/-- Well-formed identities: no two revisions share a `selfId`. -/
def wfIds (t : RevTree) : Prop :=
  (t.revs.map (fun r => r.selfId)).Nodup

/-- Well-formed parent links (spec §3 invariant): every parent reference
resolves to a revision of the tree whose generation is one less. -/
def wfParent (t : RevTree) : Prop :=
  ∀ r ∈ t.revs, ∀ pid, r.parent = some pid →
    ∃ p, getById t pid = some p ∧ p.revID.gen + 1 = r.revID.gen

/-- The leaf flag is truthful: a revision is flagged as a leaf exactly when
no revision references it as parent. -/
def wfLeaf (t : RevTree) : Prop :=
  ∀ r ∈ t.revs, (r.leaf = true ↔ ∀ c ∈ t.revs, c.parent ≠ some r.selfId)

/-- Conflict flags are closed downward: the child of a conflicted parent is
itself flagged as a conflict (true of every tree built through `_insert`). -/
def conflictClosed (t : RevTree) : Prop :=
  ∀ r ∈ t.revs, ∀ pid, r.parent = some pid →
    ∀ p, getById t pid = some p → p.isConflict = true → r.isConflict = true

/-- The sorted flag is truthful: when `_sorted` is set, the revision list is
in descending winning order. -/
def wfSorted (t : RevTree) : Prop :=
  t.sorted = true → t.revs.Pairwise (fun a b => revLE a b = true)

/-- The generation preflight of the `insertHistory` scan, as the code checks
it: the element after a predecessor of generation `g > 0` must have
generation `g - 1`; a predecessor of generation 0 (only the virtual start)
is unchecked. -/
def chainOK (g : Nat) : List RevID → Bool
  | [] => true
  | a :: rest => (g == 0 || a.gen + 1 == g) && chainOK a.gen rest

/-- Specification side: the generation numbers of a history list are
strictly decreasing by one. -/
def descendingByOne : List RevID → Bool
  | [] => true
  | [_] => true
  | a :: b :: rest => (b.gen + 1 == a.gen) && descendingByOne (b :: rest)

/-- The observable content of a revision for the history-insertion claim:
its ID, body, and Foreign flag. -/
def revProj (r : Rev) : RevID × List Nat × Bool := (r.revID, r.body, r.foreign)

/-- A concrete revision for witness instances: given identity, generation,
digest, leaf flag and parent, with every other flag clear. -/
def mkRev (i g : Nat) (dig : List Nat) (lf : Bool) (par : Option Nat) : Rev :=
  { selfId := i, revID := { gen := g, digest := dig }, body := [], seq := 0,
    leaf := lf, deleted := false, hasAttachments := false, isNew := false,
    keepBody := false, foreign := false, isConflict := false,
    markedForPurge := false, parent := par }

/-- A one-revision tree (1-a, a leaf root) used by witnesses. -/
def treeA : RevTree :=
  { revs := [mkRev 0 1 [1] true none], sorted := true, changed := false }

/-- The tree produced by inserting 2-b with body [9] under 1-a in `treeA`. -/
def treeA2 : RevTree :=
  { revs := [mkRev 0 1 [1] false none,
             Rev.mk 1 ⟨2, [2]⟩ [9] 0 true false false true false false false false (some 0)],
    sorted := false, changed := true }

/-- A one-revision tree whose root carries KeepBody. -/
def treeKB : RevTree :=
  { revs := [{ mkRev 0 1 [1] true none with keepBody := true }],
    sorted := true, changed := false }

/-- The tree produced by inserting a KeepBody revision 2-b under the root of
`treeKB`: the root's KeepBody flag is cleared. -/
def treeKB2 : RevTree :=
  { revs := [mkRev 0 1 [1] false none,
             Rev.mk 1 ⟨2, [2]⟩ [] 0 true false false true true false false false (some 0)],
    sorted := false, changed := true }

/-- The generation recorded for an identity, for reasoning about chains. -/
def genOf (t : RevTree) (id : Nat) : Nat :=
  ((getById t id).map (fun r => r.revID.gen)).getD 0

/-- An identity is marked by the prune pass: it lies deeper than `maxDepth`
on the parent chain of some leaf. -/
def pruneMarkedB (t : RevTree) (maxDepth : Nat) (id : Nat) : Bool :=
  t.revs.any (fun L =>
    L.leaf && decide (id ∈ (chainFrom t t.revs.length (some L.selfId)).drop maxDepth))

/-- A three-revision tree: root 1-a with the two leaf children 2-b and 2-c
(a conflict), used to exercise `prune`. -/
def treeP : RevTree :=
  { revs := [mkRev 0 1 [1] false none,
             mkRev 1 2 [2] true (some 0),
             mkRev 2 2 [3] true (some 0)],
    sorted := false, changed := false }

/-! ### Lemmas and theorems -/

lemma seqRun_maxv (ops : List SeqOp) :
    ∀ s : SequenceSet, (ops.foldl seqStep s).maxv = specMaxEver s.maxv ops := by
  induction ops with
  | nil => intro s; rfl
  | cons op rest ih =>
    intro s
    cases op with
    | add x => exact ih _
    | remove x => exact ih _
    | set x p => cases p <;> exact ih _
    | clear m => exact ih _

lemma seqRun_bounded (ops : List SeqOp) :
    ∀ s : SequenceSet, (∀ x ∈ s.sequences, x ≤ s.maxv) →
      ∀ x ∈ (ops.foldl seqStep s).sequences, x ≤ (ops.foldl seqStep s).maxv := by
  induction ops with
  | nil => intro s hs; exact hs
  | cons op rest ih =>
    intro s hs
    refine ih _ ?_
    cases op with
    | add x =>
      intro y hy
      rcases Finset.mem_insert.mp hy with h | h
      · exact h ▸ le_max_right _ _
      · exact le_trans (hs y h) (le_max_left _ _)
    | remove x =>
      intro y hy
      exact hs y (Finset.mem_of_mem_erase hy)
    | set x p =>
      cases p with
      | true =>
        intro y hy
        rcases Finset.mem_insert.mp hy with h | h
        · exact h ▸ le_max_right _ _
        · exact le_trans (hs y h) (le_max_left _ _)
      | false =>
        intro y hy
        exact hs y (Finset.mem_of_mem_erase hy)
    | clear m =>
      intro y hy
      simp [seqStep, SequenceSet.clear] at hy

/-- C10: over every operation sequence on a `SequenceSet`, `first()` returns
the least element of the set (0 when empty); `maxEver()` equals the maximum
of the values added since the most recent clear and the clear's argument, so
it bounds every element of the set; and `remove` never decreases it. -/
theorem c10_sequence_set_invariants (ops : List SeqOp) :
    ((seqRun ops).sequences = ∅ → (seqRun ops).first = 0) ∧
    (∀ h : (seqRun ops).sequences.Nonempty,
      (seqRun ops).first ∈ (seqRun ops).sequences ∧
      ∀ x ∈ (seqRun ops).sequences, (seqRun ops).first ≤ x) ∧
    (seqRun ops).maxEver = specMaxEver 0 ops ∧
    (∀ x ∈ (seqRun ops).sequences, x ≤ (seqRun ops).maxEver) ∧
    (∀ x : Nat, ((seqRun ops).remove x).maxEver = (seqRun ops).maxEver) := by
  refine ⟨?_, ?_, ?_, ?_, ?_⟩
  · intro h
    simp [SequenceSet.first, h]
  · intro h
    constructor
    · simp only [SequenceSet.first, dif_pos h]
      exact Finset.min'_mem _ h
    · intro x hx
      simp only [SequenceSet.first, dif_pos h]
      exact Finset.min'_le _ x hx
  · exact seqRun_maxv ops SequenceSet.init
  · exact seqRun_bounded ops SequenceSet.init (by intro x hx; simp [SequenceSet.init] at hx)
  · intro x; rfl

/-- Witness for C10 at a concrete operation sequence. -/
theorem c10_sequence_set_invariants_witness :
    (seqRun [SeqOp.add 3, SeqOp.add 7, SeqOp.remove 7]).first ∈
      (seqRun [SeqOp.add 3, SeqOp.add 7, SeqOp.remove 7]).sequences ∧
    (seqRun [SeqOp.add 3, SeqOp.add 7, SeqOp.remove 7]).maxEver =
      specMaxEver 0 [SeqOp.add 3, SeqOp.add 7, SeqOp.remove 7] := by
  refine ⟨((c10_sequence_set_invariants _).2.1 ?_).1, (c10_sequence_set_invariants _).2.2.1⟩
  decide

lemma blobCount_zero_of_find_none {st : BlobStoreM} {k : List Nat}
    (h : st.files.find? (fun e => e.1 == k) = none) : blobCount st k = 0 := by
  rw [List.find?_eq_none] at h
  unfold blobCount
  rw [List.countP_eq_zero]
  intro e he
  exact h e he

/-- C9 (spec-modelled): putting a byte string stores it under the key
computed as its digest; getting that key back returns exactly the stored
bytes; a second put of the same bytes returns the same key, leaves the store
unchanged, and exactly one file exists for that key. -/
theorem c9_blob_put_get (digest : List Nat → List Nat) (hinj : Function.Injective digest)
    (st : BlobStoreM) (b : List Nat)
    (hwf : ∀ e ∈ st.files, digest e.2 = e.1)
    (hone : blobCount st (digest b) ≤ 1) :
    (blobPut digest st b).1 = digest b ∧
    blobGet (blobPut digest st b).2 (blobPut digest st b).1 = some b ∧
    (blobPut digest (blobPut digest st b).2 b).1 = (blobPut digest st b).1 ∧
    (blobPut digest (blobPut digest st b).2 b).2 = (blobPut digest st b).2 ∧
    blobCount (blobPut digest st b).2 (digest b) = 1 := by
  cases hfind : st.files.find? (fun e => e.1 == digest b) with
  | some e =>
    have he := List.find?_some hfind
    have hmem := List.mem_of_find?_eq_some hfind
    have hk : e.1 = digest b := by simpa using he
    have heq : e.2 = b := hinj (by rw [hwf e hmem, hk])
    have hgst : blobGet st (digest b) = some b := by
      unfold blobGet; rw [hfind]; simp [heq]
    have hput : blobPut digest st b = (digest b, st) := by
      simp [blobPut, hgst]
    have hcnt : blobCount st (digest b) = 1 := by
      have hpos : 0 < blobCount st (digest b) := by
        unfold blobCount
        rw [List.countP_pos_iff]
        exact ⟨e, hmem, by simpa using hk⟩
      omega
    rw [hput]
    exact ⟨rfl, hgst, by rw [hput], by rw [hput], hcnt⟩
  | none =>
    have hgn : blobGet st (digest b) = none := by
      unfold blobGet; rw [hfind]; rfl
    have hput : blobPut digest st b = (digest b, { files := (digest b, b) :: st.files }) := by
      simp [blobPut, hgn]
    have hg1 : blobGet { files := (digest b, b) :: st.files } (digest b) = some b := by
      unfold blobGet
      simp [List.find?]
    have hput2 : blobPut digest { files := (digest b, b) :: st.files } b =
        (digest b, { files := (digest b, b) :: st.files }) := by
      simp [blobPut, hg1]
    rw [hput]
    refine ⟨rfl, hg1, by rw [hput2], by rw [hput2], ?_⟩
    have h0 : blobCount st (digest b) = 0 := blobCount_zero_of_find_none hfind
    unfold blobCount at h0 ⊢
    simp only [List.countP_cons]
    simp [h0]

/-- Witness for C9: the identity digest on the empty store. -/
theorem c9_blob_put_get_witness :
    (blobPut id { files := [] } [1, 2]).1 = id [1, 2] ∧
    blobGet (blobPut id { files := [] } [1, 2]).2 (blobPut id { files := [] } [1, 2]).1 =
      some [1, 2] ∧
    blobCount (blobPut id { files := [] } [1, 2]).2 (id [1, 2]) = 1 := by
  have h := c9_blob_put_get id (fun _ _ h => h) { files := [] } [1, 2]
    (by intro e he; simp at he) (by decide)
  exact ⟨h.1, h.2.1, h.2.2.2.2⟩

lemma listLT_irrefl : ∀ l : List Nat, listLT l l = false := by
  intro l
  induction l with
  | nil => rfl
  | cons a as ih => simp [listLT, ih]

lemma listLT_asymm : ∀ a b : List Nat, listLT a b = true → listLT b a = false := by
  intro a
  induction a with
  | nil =>
    intro b h
    cases b with
    | nil => simp [listLT] at h
    | cons y ys => simp [listLT]
  | cons x xs ih =>
    intro b h
    cases b with
    | nil => simp [listLT] at h
    | cons y ys =>
      simp only [listLT] at h ⊢
      by_cases hxy : x < y <;> by_cases hyx : y < x <;>
        simp [hxy, hyx] at h ⊢
      · omega
      · exact ih _ h

lemma listLT_trans : ∀ a b c : List Nat,
    listLT a b = true → listLT b c = true → listLT a c = true := by
  intro a
  induction a with
  | nil =>
    intro b c h1 h2
    cases b with
    | nil => simp [listLT] at h1
    | cons y ys =>
      cases c with
      | nil => simp [listLT] at h2
      | cons z zs => simp [listLT]
  | cons x xs ih =>
    intro b c h1 h2
    cases b with
    | nil => simp [listLT] at h1
    | cons y ys =>
      cases c with
      | nil => simp [listLT] at h2
      | cons z zs =>
        simp only [listLT] at h1 h2 ⊢
        by_cases hxy : x < y
        · by_cases hyz : y < z
          · simp [show x < z by omega]
          · by_cases hzy : z < y
            · simp [hyz, hzy] at h2
            · simp [show x < z by omega]
        · by_cases hyx : y < x
          · simp [hxy, hyx] at h1
          · simp [hxy, hyx] at h1
            by_cases hyz : y < z
            · simp [show x < z by omega]
            · by_cases hzy : z < y
              · simp [hyz, hzy] at h2
              · simp [hyz, hzy] at h2
                simp [show ¬ x < z by omega, show ¬ z < x by omega]
                exact ih _ _ h1 h2

lemma listLT_connex : ∀ a b : List Nat,
    listLT a b = false → listLT b a = false → a = b := by
  intro a
  induction a with
  | nil =>
    intro b h1 _
    cases b with
    | nil => rfl
    | cons y ys => simp [listLT] at h1
  | cons x xs ih =>
    intro b h1 h2
    cases b with
    | nil => simp [listLT] at h2
    | cons y ys =>
      simp only [listLT] at h1 h2
      by_cases hxy : x < y
      · simp [hxy] at h1
      · by_cases hyx : y < x
        · simp [hxy, hyx] at h2
        · simp [hxy, hyx] at h1 h2
          have hxe : x = y := by omega
          rw [hxe, ih _ h1 h2]

lemma revidLT_irrefl (a : RevID) : revidLT a a = false := by
  simp [revidLT, listLT_irrefl]

lemma revidLT_asymm {a b : RevID} (h : revidLT a b = true) : revidLT b a = false := by
  unfold revidLT at h ⊢
  by_cases hg : a.gen = b.gen
  · simp [hg] at h ⊢
    exact listLT_asymm _ _ h
  · simp [hg, Ne.symm hg] at h ⊢
    omega

lemma revidLT_trans {a b c : RevID} (h1 : revidLT a b = true) (h2 : revidLT b c = true) :
    revidLT a c = true := by
  unfold revidLT at h1 h2 ⊢
  by_cases hab : a.gen = b.gen
  · by_cases hbc : b.gen = c.gen
    · simp only [if_pos hab, if_pos hbc] at h1 h2
      rw [if_pos (hab.trans hbc)]
      exact listLT_trans _ _ _ h1 h2
    · simp only [if_pos hab, if_neg hbc] at h1 h2
      simp at h2
      have hac : a.gen ≠ c.gen := by omega
      rw [if_neg hac]
      simp
      omega
  · by_cases hbc : b.gen = c.gen
    · simp only [if_neg hab, if_pos hbc] at h1 h2
      simp at h1
      have hac : a.gen ≠ c.gen := by omega
      rw [if_neg hac]
      simp
      omega
    · simp only [if_neg hab, if_neg hbc] at h1 h2
      simp at h1 h2
      have hac : a.gen ≠ c.gen := by omega
      rw [if_neg hac]
      simp
      omega

lemma revidLT_connex {a b : RevID} (h1 : revidLT a b = false) (h2 : revidLT b a = false) :
    a = b := by
  unfold revidLT at h1 h2
  by_cases hg : a.gen = b.gen
  · rw [if_pos hg] at h1
    rw [if_pos hg.symm] at h2
    have hd : a.digest = b.digest := listLT_connex _ _ h1 h2
    cases a; cases b
    simp only [RevID.mk.injEq]
    exact ⟨hg, hd⟩
  · rw [if_neg hg] at h1
    rw [if_neg (Ne.symm hg)] at h2
    simp at h1 h2
    omega

lemma revidLT_neg_trans {a b c : RevID} (h1 : revidLT a b = false)
    (h2 : revidLT b c = false) : revidLT a c = false := by
  cases hba : revidLT b a with
  | false => exact revidLT_connex h1 hba ▸ h2
  | true =>
    cases hac : revidLT a c with
    | false => rfl
    | true => exact absurd (revidLT_trans hba hac) (by rw [h2]; simp)

/-- `compareRevs` expressed through the numeric rank of the flag tuple. -/
lemma compareRevs_rank (r1 r2 : Rev) :
    compareRevs r1 r2 =
      (decide (rank r1 < rank r2) ||
        (decide (rank r1 = rank r2) && revidLT r2.revID r1.revID)) := by
  unfold compareRevs rank bInt
  cases r1.leaf <;> cases r2.leaf <;> cases r1.deleted <;> cases r2.deleted <;>
    cases r1.isConflict <;> cases r2.isConflict <;> simp

/-- The spec-side tuple order expressed through the same rank. -/
lemma revTupleGT_rank (r1 r2 : Rev) :
    revTupleGT r1 r2 =
      (decide (rank r1 < rank r2) ||
        (decide (rank r1 = rank r2) && revidLT r2.revID r1.revID)) := by
  unfold revTupleGT rank
  cases r1.leaf <;> cases r2.leaf <;> cases r1.deleted <;> cases r2.deleted <;>
    cases r1.isConflict <;> cases r2.isConflict <;> simp

lemma compareRevs_irrefl (r : Rev) : compareRevs r r = false := by
  rw [compareRevs_rank]
  simp [revidLT_irrefl]

lemma compareRevs_iff {r1 r2 : Rev} :
    compareRevs r1 r2 = true ↔
      (rank r1 < rank r2 ∨ (rank r1 = rank r2 ∧ revidLT r2.revID r1.revID = true)) := by
  rw [compareRevs_rank]
  simp

lemma compareRevs_eq_false_iff {r1 r2 : Rev} :
    compareRevs r1 r2 = false ↔
      (rank r2 ≤ rank r1 ∧ (rank r1 = rank r2 → revidLT r2.revID r1.revID = false)) := by
  rw [compareRevs_rank]
  cases h : revidLT r2.revID r1.revID <;> simp [h] <;> omega

lemma revLE_trans_true : ∀ a b c : Rev,
    revLE a b = true → revLE b c = true → revLE a c = true := by
  intro a b c h1 h2
  unfold revLE at h1 h2 ⊢
  rw [Bool.not_eq_true'] at h1 h2 ⊢
  rw [compareRevs_eq_false_iff] at h1 h2 ⊢
  obtain ⟨hr1, ht1⟩ := h1
  obtain ⟨hr2, ht2⟩ := h2
  refine ⟨by omega, ?_⟩
  intro he
  have hba : rank b = rank a := by omega
  have hcb : rank c = rank b := by omega
  exact revidLT_neg_trans (ht1 hba) (ht2 hcb)

lemma revLE_total_true : ∀ a b : Rev, (revLE a b || revLE b a) = true := by
  intro a b
  unfold revLE
  cases h1 : compareRevs b a with
  | false => simp
  | true =>
    cases h2 : compareRevs a b with
    | false => simp
    | true =>
      exfalso
      rw [compareRevs_iff] at h1 h2
      rcases h1 with h1 | ⟨he1, ht1⟩ <;> rcases h2 with h2 | ⟨he2, ht2⟩
      · omega
      · omega
      · omega
      · rw [revidLT_asymm ht1] at ht2
        exact Bool.false_ne_true ht2

lemma isActive_iff_rank (r : Rev) : r.isActive = true ↔ rank r ≤ 1 := by
  unfold Rev.isActive rank
  cases r.leaf <;> cases r.deleted <;> cases r.isConflict <;> simp

lemma activeScan_spec : ∀ (l : List Rev) (n : Nat), n ≤ 1 →
    activeScan l n = decide (2 ≤ l.countP (fun r => r.isActive) + n) := by
  intro l
  induction l with
  | nil =>
    intro n hn
    simp [activeScan]
    omega
  | cons r rest ih =>
    intro n hn
    cases hr : r.isActive with
    | true =>
      simp only [activeScan, hr, if_true]
      rw [List.countP_cons]
      simp only [hr]
      by_cases h1 : n + 1 > 1
      · have hn1 : n = 1 := by omega
        simp [h1, hn1]
      · have hn0 : n = 0 := by omega
        simp [h1, hn0]
        rw [ih 1 (by omega)]
        simp
    | false =>
      simp only [activeScan, hr, Bool.false_eq_true, if_false]
      rw [List.countP_cons]
      simp only [hr]
      rw [ih n hn]
      simp

/-- C4: `hasConflict()` returns true iff at least two revisions are active,
and the sorted fast path (inspecting only index 1) agrees with the count
over the whole tree. -/
theorem c4_has_conflict (t : RevTree) (hs : wfSorted t) :
    t.hasConflict = decide (2 ≤ t.revs.countP (fun r => r.isActive)) := by
  unfold RevTree.hasConflict
  by_cases hlen : t.revs.length < 2
  · have hc : t.revs.countP (fun r => r.isActive) ≤ t.revs.length :=
      List.countP_le_length _
    simp [hlen]
    omega
  · simp only [hlen, if_false]
    cases hsf : t.sorted with
    | false =>
      simp only [Bool.false_eq_true, if_false]
      rw [activeScan_spec t.revs 0 (by omega)]
      simp
    | true =>
      simp only [if_true]
      have hp := hs hsf
      rcases hrv : t.revs with _ | ⟨r0, _ | ⟨r1, rest⟩⟩
      · rw [hrv] at hlen; simp at hlen
      · rw [hrv] at hlen; simp at hlen
      · rw [hrv] at hp
        have h01 : revLE r0 r1 = true := (List.pairwise_cons.mp hp).1 r1 (by simp)
        cases hr1 : r1.isActive with
        | true =>
          have hr0 : r0.isActive = true := by
            rw [isActive_iff_rank]
            unfold revLE at h01
            rw [Bool.not_eq_true'] at h01
            rw [compareRevs_eq_false_iff] at h01
            have := (isActive_iff_rank r1).mp hr1
            omega
          simp only [List.countP_cons, hr0, hr1]
          simp
        | false =>
          have hrest : ∀ x ∈ rest, x.isActive = false := by
            intro x hx
            have h1x : revLE r1 x = true := by
              have := (List.pairwise_cons.mp (List.pairwise_cons.mp hp).2).1 x hx
              exact this
            unfold revLE at h1x
            rw [Bool.not_eq_true'] at h1x
            rw [compareRevs_eq_false_iff] at h1x
            have hr1r : ¬ rank r1 ≤ 1 := by
              intro hcon
              exact absurd ((isActive_iff_rank r1).mpr hcon) (by rw [hr1]; simp)
            cases hxa : x.isActive with
            | false => rfl
            | true =>
              have := (isActive_iff_rank x).mp hxa
              omega
          have hcrest : rest.countP (fun r => r.isActive) = 0 := by
            rw [List.countP_eq_zero]
            intro x hx
            simp [hrest x hx]
          simp only [List.countP_cons, hr1, hcrest]
          cases hr0 : r0.isActive <;> simp

/-- Witness for C4 at a concrete two-revision tree. -/
theorem c4_has_conflict_witness :
    (RevTree.hasConflict
        { revs := [{ selfId := 0, revID := { gen := 1, digest := [3] }, body := [],
                     seq := 0, leaf := true, deleted := false, hasAttachments := false,
                     isNew := false, keepBody := false, foreign := false,
                     isConflict := false, markedForPurge := false, parent := none },
                   { selfId := 1, revID := { gen := 1, digest := [2] }, body := [],
                     seq := 0, leaf := true, deleted := false, hasAttachments := false,
                     isNew := false, keepBody := false, foreign := false,
                     isConflict := true, markedForPurge := false, parent := none }],
          sorted := true, changed := false }) = true := by
  rw [c4_has_conflict _ (by intro _; decide)]
  decide

lemma getById_mem {t : RevTree} {i : Nat} {p : Rev} (h : getById t i = some p) :
    p ∈ t.revs ∧ p.selfId = i := by
  unfold getById at h
  exact ⟨List.mem_of_find?_eq_some h, by simpa using List.find?_some h⟩

lemma nodup_inj {t : RevTree} (hids : wfIds t) {a b : Rev}
    (ha : a ∈ t.revs) (hb : b ∈ t.revs) (hid : a.selfId = b.selfId) : a = b := by
  exact List.inj_on_of_nodup_map hids ha hb hid

lemma getById_eq_of_mem {t : RevTree} (hids : wfIds t) {r : Rev} (hr : r ∈ t.revs) :
    getById t r.selfId = some r := by
  have hsome : (t.revs.find? (fun x => x.selfId == r.selfId)).isSome := by
    rw [List.find?_isSome]
    exact ⟨r, hr, by simp⟩
  obtain ⟨p, hp⟩ := Option.isSome_iff_exists.mp hsome
  have hpp : p ∈ t.revs ∧ p.selfId = r.selfId := ⟨List.mem_of_find?_eq_some hp,
    by simpa using List.find?_some hp⟩
  unfold getById
  rw [hp, nodup_inj hids hpp.1 hr hpp.2]

lemma chainFrom_cons {t : RevTree} {i : Nat} {r : Rev} (hg : getById t i = some r)
    {fuel : Nat} (hf : 0 < fuel) :
    chainFrom t fuel (some i) = i :: chainFrom t (fuel - 1) r.parent := by
  cases fuel with
  | zero => omega
  | succ f => simp [chainFrom, hg]

lemma chainFrom_mem_child {t : RevTree} : ∀ (fuel : Nat) (p : Option Nat) (id : Nat),
    id ∈ chainFrom t fuel p →
    p = some id ∨ ∃ c ∈ t.revs, c.parent = some id := by
  intro fuel
  induction fuel with
  | zero =>
    intro p id h
    cases p <;> simp [chainFrom] at h
  | succ fuel ih =>
    intro p id h
    cases p with
    | none => simp [chainFrom] at h
    | some i =>
      simp only [chainFrom] at h
      cases hg : getById t i with
      | none => rw [hg] at h; simp at h
      | some r =>
        rw [hg] at h
        rcases List.mem_cons.mp h with he | hm
        · exact Or.inl (by rw [he])
        · rcases ih r.parent id hm with hp | hc
          · exact Or.inr ⟨r, (getById_mem hg).1, hp⟩
          · exact Or.inr hc

lemma exists_leaf (t : RevTree) (hne : t.revs ≠ []) (hids : wfIds t) (hpar : wfParent t)
    (hleaf : wfLeaf t) : ∃ r ∈ t.revs, r.leaf = true := by
  cases hmx : t.revs.argmax (fun r => r.revID.gen) with
  | none => exact absurd (List.argmax_eq_none.mp hmx) hne
  | some m =>
    have hmm : m ∈ t.revs.argmax (fun r => r.revID.gen) := Option.mem_def.mpr hmx
    have hm : m ∈ t.revs := List.argmax_mem hmm
    refine ⟨m, hm, ?_⟩
    cases hml : m.leaf with
    | true => rfl
    | false =>
      exfalso
      have hiff := hleaf m hm
      rw [hml] at hiff
      have hch : ¬ ∀ c ∈ t.revs, c.parent ≠ some m.selfId := by
        intro hall
        exact Bool.false_ne_true (hiff.mpr hall)
      push_neg at hch
      obtain ⟨c, hc, hcp⟩ := hch
      obtain ⟨p, hpget, hpgen⟩ := hpar c hc m.selfId hcp
      have hpm : p = m := nodup_inj hids (getById_mem hpget).1 hm (getById_mem hpget).2
      have hle : c.revID.gen ≤ m.revID.gen :=
        @List.le_of_mem_argmax Rev Nat _ (fun r => r.revID.gen) t.revs c m hc hmm
      rw [hpm] at hpgen
      omega

lemma rank_le_three_of_leaf {r : Rev} (h : r.leaf = true) : rank r ≤ 3 := by
  unfold rank
  rw [h]
  cases r.deleted <;> cases r.isConflict <;> simp

lemma four_le_rank_of_nonleaf {r : Rev} (h : r.leaf = false) : 4 ≤ rank r := by
  unfold rank
  rw [h]
  cases r.deleted <;> cases r.isConflict <;> simp

lemma leaf_of_rank_le_three {r : Rev} (h : rank r ≤ 3) : r.leaf = true := by
  cases hl : r.leaf with
  | true => rfl
  | false => exact absurd h (by have := four_le_rank_of_nonleaf hl; omega)

lemma rank_clearC {r : Rev} (h : r.isConflict = true) :
    rank { r with isConflict := false } + 1 = rank r := by
  unfold rank
  rw [h]
  simp

lemma head_maximal_of_pairwise {l : List Rev}
    (hp : l.Pairwise (fun a b => revLE a b = true)) {r0 : Rev} (h0 : l.head? = some r0) :
    ∀ r ∈ l, compareRevs r r0 = false := by
  cases l with
  | nil => simp at h0
  | cons a rest =>
    have ha : a = r0 := by simpa using h0
    subst ha
    intro r hr
    rcases List.mem_cons.mp hr with he | hm
    · rw [he]; exact compareRevs_irrefl a
    · have := (List.pairwise_cons.mp hp).1 r hm
      unfold revLE at this
      rwa [Bool.not_eq_true'] at this

lemma ccrc_winner (t : RevTree) (hids : wfIds t) (hleaf : wfLeaf t)
    (hex : t.revs ≠ [] → ∃ rl ∈ t.revs, rl.leaf = true)
    (hmax : ∀ r0, t.revs.head? = some r0 → ∀ r ∈ t.revs, compareRevs r r0 = false) :
    ∀ r0, (checkForResolvedConflict t).revs.head? = some r0 →
      ∀ r ∈ (checkForResolvedConflict t).revs, compareRevs r r0 = false := by
  intro r0 h0 r' hr'
  rcases hrv : t.revs with _ | ⟨h0t, rest⟩
  · have hid : checkForResolvedConflict t = t := by
      unfold checkForResolvedConflict
      rw [hrv]
      rfl
    rw [hid] at h0 hr'
    exact hmax r0 h0 r' hr'
  · have hh : t.revs.head? = some h0t := by rw [hrv]; rfl
    have hccrc : checkForResolvedConflict t =
        (if (t.sorted && h0t.isConflict) = true then
          clearConflictFlags t (chainFrom t t.revs.length (some h0t.selfId))
        else t) := by
      unfold checkForResolvedConflict
      rw [hh]
    rw [hccrc] at h0 hr'
    cases hcond : (t.sorted && h0t.isConflict) with
    | false =>
      rw [hcond] at h0 hr'
      simp only [Bool.false_eq_true, if_false] at h0 hr'
      exact hmax r0 h0 r' hr'
    | true =>
      rw [hcond] at h0 hr'
      simp only [if_true] at h0 hr'
      have hconf : h0t.isConflict = true := by
        have hconds := hcond
        simp only [Bool.and_eq_true] at hconds
        exact hconds.2
      set ch := chainFrom t t.revs.length (some h0t.selfId) with hch
      have hget0 : getById t h0t.selfId = some h0t := by
        unfold getById
        rw [hrv]
        simp [List.find?]
      have hlen1 : t.revs.length = rest.length + 1 := by rw [hrv]; rfl
      have hmem0 : h0t.selfId ∈ ch := by
        rw [hch, chainFrom_cons hget0 (by rw [hlen1]; omega)]
        exact List.mem_cons_self _ _
      -- the mutated head
      have h0' : r0 = { h0t with isConflict := false } := by
        unfold clearConflictFlags at h0
        rw [List.head?_map, hh] at h0
        rw [Option.map_some'] at h0
        rw [if_pos hmem0] at h0
        exact (Option.some_inj.mp h0).symm
      -- source of r'
      unfold clearConflictFlags at hr'
      obtain ⟨r, hrmem, hrdef⟩ := List.mem_map.mp hr'
      have hmaxr : compareRevs r h0t = false := hmax h0t hh r hrmem
      have hrank0 : rank r0 + 1 = rank h0t := by
        rw [h0']
        exact rank_clearC hconf
      have hr0leaf : r0.leaf = h0t.leaf := by rw [h0']
      by_cases heq : r = h0t
      · subst heq
        rw [if_pos hmem0] at hrdef
        rw [← hrdef, ← h0']
        exact compareRevs_irrefl r0
      · by_cases hin : r.selfId ∈ ch
        · -- a cleared proper chain member: it has a child, so it is not a leaf
          have hidne : r.selfId ≠ h0t.selfId := by
            intro hsame
            exact heq (nodup_inj hids hrmem (by rw [hrv]; simp) hsame)
          have hchild : ∃ c ∈ t.revs, c.parent = some r.selfId := by
            rcases chainFrom_mem_child t.revs.length (some h0t.selfId) r.selfId hin with
              hp | hc
            · exact absurd (by injection hp with h; exact h.symm) hidne
            · exact hc
          have hrleaf : r.leaf = false := by
            cases hl : r.leaf with
            | false => rfl
            | true =>
              obtain ⟨c, hc, hcp⟩ := hchild
              exact absurd hcp (((hleaf r hrmem).mp hl) c hc)
          have hl0 : h0t.leaf = true := by
            obtain ⟨rl, hrl, hrleaf'⟩ := hex (by rw [hrv]; simp)
            have := hmax h0t hh rl hrl
            rw [compareRevs_eq_false_iff] at this
            exact leaf_of_rank_le_three
              (le_trans this.1 (rank_le_three_of_leaf hrleaf'))
          rw [← hrdef, if_pos hin]
          rw [compareRevs_eq_false_iff]
          have hgr : 4 ≤ rank { r with isConflict := false } := by
            apply four_le_rank_of_nonleaf
            simpa using hrleaf
          have hgh : rank r0 ≤ 3 := by
            apply rank_le_three_of_leaf
            rw [hr0leaf]
            exact hl0
          exact ⟨by omega, fun hcon => absurd hcon (by omega)⟩
        · -- an untouched revision: it did not beat the head before, and the
          -- head only improved
          rw [← hrdef, if_neg hin]
          rw [compareRevs_eq_false_iff] at hmaxr ⊢
          refine ⟨by omega, fun hcon => absurd hcon (by omega)⟩

/-- C2: the comparator implements the descending lexicographic tuple
(isLeaf, not isDeleted, not isConflict, revID), and after `sort()` the
revision at index 0 is the winner: no revision of the tree is higher
priority. -/
theorem c2_winning_order :
    (∀ r1 r2 : Rev, compareRevs r1 r2 = revTupleGT r1 r2) ∧
    (∀ t : RevTree, wfSorted t → wfIds t → wfParent t → wfLeaf t →
      ∀ r0, (RevTree.sortTree t).revs.head? = some r0 →
        ∀ r ∈ (RevTree.sortTree t).revs, compareRevs r r0 = false) := by
  constructor
  · intro r1 r2
    rw [compareRevs_rank, revTupleGT_rank]
  · intro t hs hids hpar hleaf r0 h0 r hr
    cases hsf : t.sorted with
    | true =>
      have hst : RevTree.sortTree t = t := by
        unfold RevTree.sortTree
        rw [hsf]
        simp
      rw [hst] at h0 hr
      exact head_maximal_of_pairwise (hs hsf) h0 r hr
    | false =>
      have hst : RevTree.sortTree t =
          checkForResolvedConflict
            { t with revs := t.revs.mergeSort revLE, sorted := true } := by
        unfold RevTree.sortTree
        rw [hsf]
        simp
      set t' : RevTree := { t with revs := t.revs.mergeSort revLE, sorted := true }
        with ht'
      have hperm : t'.revs.Perm t.revs := List.mergeSort_perm t.revs revLE
      have hids' : wfIds t' := by
        unfold wfIds at hids ⊢
        exact (hperm.map (fun r => r.selfId)).nodup_iff.mpr hids
      have hmemiff : ∀ x : Rev, x ∈ t'.revs ↔ x ∈ t.revs := fun x => hperm.mem_iff
      have hleaf' : wfLeaf t' := by
        intro x hx
        rw [hmemiff] at hx
        constructor
        · intro hl c hc
          exact ((hleaf x hx).mp hl) c ((hmemiff c).mp hc)
        · intro hnc
          exact (hleaf x hx).mpr (fun c hc => hnc c ((hmemiff c).mpr hc))
      have hex' : t'.revs ≠ [] → ∃ rl ∈ t'.revs, rl.leaf = true := by
        intro hne
        have hne2 : t.revs ≠ [] := by
          intro hnil
          exact hne (List.Perm.eq_nil (hnil ▸ hperm))
        obtain ⟨rl, hrl, hl⟩ := exists_leaf t hne2 hids hpar hleaf
        exact ⟨rl, (hmemiff rl).mpr hrl, hl⟩
      have hmax' : ∀ q0, t'.revs.head? = some q0 →
          ∀ q ∈ t'.revs, compareRevs q q0 = false := by
        intro q0 hq0 q hq
        have hpw : t'.revs.Pairwise (fun a b => revLE a b = true) :=
          List.sorted_mergeSort revLE_trans_true revLE_total_true t.revs
        exact head_maximal_of_pairwise hpw hq0 q hq
      rw [hst] at h0 hr
      exact ccrc_winner t' hids' hleaf' hex' hmax' r0 h0 r hr

/-- Witness for C2 at a concrete sorted one-revision tree. -/
theorem c2_winning_order_witness :
    compareRevs (mkRev 0 1 [1] true none) (mkRev 0 1 [1] true none) = false := by
  have h := c2_winning_order
  refine h.2 { revs := [mkRev 0 1 [1] true none], sorted := true, changed := false }
    ?_ ?_ ?_ ?_ (mkRev 0 1 [1] true none) rfl (mkRev 0 1 [1] true none) ?_
  · intro hs
    decide
  · unfold wfIds
    decide
  · intro r hr pid hp
    simp at hr
    subst hr
    simp [mkRev] at hp
  · unfold wfLeaf
    decide
  · decide

/-- `_insert` decomposed: the result list is the old list with only `leaf` and
`keepBody` flags possibly rewritten, followed by the freshly built revision. -/
lemma insertLow_decomp (t : RevTree) (rid : RevID) (body : List Nat)
    (pid : Option Nat) (rf : RFlags) :
    ∃ (g : Rev → Rev) (nr : Rev),
      (t.insertLow rid body pid rf).1.revs = t.revs.map g ++ [nr] ∧
      (∀ r : Rev, g r = { r with leaf := (g r).leaf, keepBody := (g r).keepBody }) ∧
      (∀ pd, pid = some pd → (getById t pd).isSome = true →
        ∀ r : Rev, (r.selfId == pd) = true → (g r).leaf = false) ∧
      nr.selfId = (t.insertLow rid body pid rf).2 ∧
      nr.revID = rid ∧ nr.body = body ∧ nr.seq = 0 ∧
      nr.leaf = true ∧ nr.isNew = true ∧
      nr.deleted = rf.deleted ∧ nr.hasAttachments = rf.hasAttachments ∧
      nr.keepBody = rf.keepBody ∧ nr.foreign = rf.foreign ∧
      nr.markedForPurge = false ∧ nr.parent = pid ∧
      nr.isConflict = (match pid with
        | some pd => (match getById t pd with
            | some p => !p.leaf || p.isConflict
            | none => false)
        | none => !t.revs.isEmpty) := by
  unfold RevTree.insertLow
  cases pid with
  | none =>
    cases hemp : t.revs.isEmpty with
    | true =>
      refine ⟨id, Rev.mk (freshId t) rid body 0 true rf.deleted rf.hasAttachments
        true rf.keepBody rf.foreign false false none, ?_, fun r => by simp,
        fun pd hpd => Option.noConfusion hpd, ?_⟩
      · simp [hemp]
      · simp [hemp]
    | false =>
      refine ⟨id, Rev.mk (freshId t) rid body 0 true rf.deleted rf.hasAttachments
        true rf.keepBody rf.foreign true false none, ?_, fun r => by simp,
        fun pd hpd => Option.noConfusion hpd, ?_⟩
      · simp [hemp]
      · simp [hemp]
  | some pd =>
    cases hg : getById t pd with
    | none =>
      refine ⟨id, Rev.mk (freshId t) rid body 0 true rf.deleted rf.hasAttachments
        true rf.keepBody rf.foreign false false (some pd), ?_, fun r => by simp, ?_, ?_⟩
      · simp [hg]
      · intro pd' hpd' hs
        rw [← Option.some.inj hpd', hg] at hs
        simp at hs
      · simp [hg]
    | some p =>
      by_cases hkb : rf.keepBody = true
      · refine ⟨(fun r =>
          if (if r.selfId == pd then { r with leaf := false } else r).selfId ∈
              kbClearChain t (!p.leaf || p.isConflict) (t.revs.length + 1) (some pd)
          then { (if r.selfId == pd then { r with leaf := false } else r) with
                  keepBody := false }
          else (if r.selfId == pd then { r with leaf := false } else r)),
          Rev.mk (freshId t) rid body 0 true rf.deleted rf.hasAttachments
            true rf.keepBody rf.foreign (!p.leaf || p.isConflict) false (some pd),
          ?_, ?_, ?_, ?_⟩
        · simp only [hg, hkb, if_true]
          unfold clearKeepBodyOn updateRev
          simp only [List.map_map, Function.comp_def]
          congr 1
          cases hc : (!p.leaf || p.isConflict) <;> simp [hc]
        · intro r
          by_cases h2 : (r.selfId == pd) = true <;>
            simp only [h2, if_true, Bool.false_eq_true, if_false] <;>
            by_cases h1 : r.selfId ∈
              kbClearChain t (!p.leaf || p.isConflict) (t.revs.length + 1) (some pd) <;>
            simp [h1]
        · intro pd' hpd' hs r hr
          rw [← Option.some.inj hpd'] at hr
          by_cases h1 : r.selfId ∈
              kbClearChain t (!p.leaf || p.isConflict) (t.revs.length + 1) (some pd) <;>
            simp [h1, hr]
        · simp only [hg]
          cases hc : (!p.leaf || p.isConflict) <;> simp [hc, hkb]
      · refine ⟨(fun r => if r.selfId == pd then { r with leaf := false } else r),
          Rev.mk (freshId t) rid body 0 true rf.deleted rf.hasAttachments
            true rf.keepBody rf.foreign (!p.leaf || p.isConflict) false (some pd),
          ?_, ?_, ?_, ?_⟩
        · simp only [hg]
          rw [if_neg hkb]
          unfold updateRev
          congr 1
          cases hc : (!p.leaf || p.isConflict) <;> simp [hc]
        · intro r
          by_cases h2 : (r.selfId == pd) = true <;> simp [h2]
        · intro pd' hpd' hs r hr
          rw [← Option.some.inj hpd'] at hr
          simp [hr]
        · simp only [hg]
          cases hc : (!p.leaf || p.isConflict) <;> simp [hc]

/-- C1: `insert` rejects a zero generation with 400; an already-present ID is
a no-op with 200; a non-leaf parent (or a missing parent on a non-empty tree)
without `allowConflict` gives 409; a generation that is not parent+1 (or not
1 for a root) gives 400; otherwise the revision is inserted and the status is
201 for a plain body, 200 for a tombstone.  Every rejection leaves the tree
unchanged. -/
theorem c1_insert_cases (t : RevTree) (rid : RevID) (body : List Nat) (rf : RFlags)
    (allowConflict : Bool) :
    (rid.gen = 0 →
      ∀ parentId, t.insert rid body rf parentId allowConflict = (none, 400, t)) ∧
    (rid.gen ≠ 0 → (getByRevID t rid).isSome = true →
      ∀ parentId, t.insert rid body rf parentId allowConflict = (none, 200, t)) ∧
    (rid.gen ≠ 0 → (getByRevID t rid).isSome = false → allowConflict = false →
      ∀ pid p, getById t pid = some p → p.leaf = false →
        t.insert rid body rf (some pid) allowConflict = (none, 409, t)) ∧
    (rid.gen ≠ 0 → (getByRevID t rid).isSome = false → allowConflict = false →
      t.revs ≠ [] →
      t.insert rid body rf none allowConflict = (none, 409, t)) ∧
    (rid.gen ≠ 0 → (getByRevID t rid).isSome = false →
      ∀ pid p, getById t pid = some p → (allowConflict = true ∨ p.leaf = true) →
        rid.gen ≠ p.revID.gen + 1 →
        t.insert rid body rf (some pid) allowConflict = (none, 400, t)) ∧
    (rid.gen ≠ 0 → (getByRevID t rid).isSome = false →
      (allowConflict = true ∨ t.revs = []) → rid.gen ≠ 1 →
      t.insert rid body rf none allowConflict = (none, 400, t)) ∧
    (rid.gen ≠ 0 → (getByRevID t rid).isSome = false →
      ∀ pid p, getById t pid = some p → (allowConflict = true ∨ p.leaf = true) →
        rid.gen = p.revID.gen + 1 →
        (t.insert rid body rf (some pid) allowConflict).2.1 =
          (if rf.deleted = true then 200 else 201) ∧
        ∃ nid, (t.insert rid body rf (some pid) allowConflict).1 = some nid ∧
          ∃ nr ∈ (t.insert rid body rf (some pid) allowConflict).2.2.revs,
            nr.selfId = nid ∧ nr.revID = rid) ∧
    (rid.gen ≠ 0 → (getByRevID t rid).isSome = false →
      (allowConflict = true ∨ t.revs = []) → rid.gen = 1 →
      (t.insert rid body rf none allowConflict).2.1 =
        (if rf.deleted = true then 200 else 201) ∧
      ∃ nid, (t.insert rid body rf none allowConflict).1 = some nid ∧
        ∃ nr ∈ (t.insert rid body rf none allowConflict).2.2.revs,
          nr.selfId = nid ∧ nr.revID = rid) := by
  refine ⟨?_, ?_, ?_, ?_, ?_, ?_, ?_, ?_⟩
  · intro h parentId
    simp [RevTree.insert, h]
  · intro h hdup parentId
    simp [RevTree.insert, h, hdup]
  · intro h hdup hac pid p hp hleaf
    simp [RevTree.insert, h, hdup, hp, hac, hleaf]
  · intro h hdup hac hne
    have hie : t.revs.isEmpty = false := by
      cases hie : t.revs.isEmpty with
      | false => rfl
      | true => exact absurd (List.isEmpty_iff.mp hie) hne
    simp [RevTree.insert, h, hdup, hac, hie]
  · intro h hdup pid p hp hok hgen
    rcases hok with hok | hok <;>
      simp [RevTree.insert, h, hdup, hp, hok, hgen]
  · intro h hdup hok hgen
    rcases hok with hok | hok <;>
      simp [RevTree.insert, h, hdup, hok, hgen]
  · intro h hdup pid p hp hok hgen
    obtain ⟨g, nr, hrevs, hgp, hgl, hsid, hrid, hrest⟩ :=
      insertLow_decomp t rid body (some pid) rf
    have hins : t.insert rid body rf (some pid) allowConflict =
        (some (t.insertLow rid body (some pid) rf).2,
         if rf.deleted = true then 200 else 201,
         (t.insertLow rid body (some pid) rf).1) := by
      rcases hok with hok | hok <;>
        simp [RevTree.insert, h, hdup, hp, hok, hgen]
    rw [hins]
    refine ⟨rfl, nr.selfId, by rw [hsid], nr, ?_, rfl, hrid⟩
    rw [hrevs]
    simp
  · intro h hdup hok hgen
    obtain ⟨g, nr, hrevs, hgp, hgl, hsid, hrid, hrest⟩ :=
      insertLow_decomp t rid body none rf
    have hins : t.insert rid body rf none allowConflict =
        (some (t.insertLow rid body none rf).2,
         if rf.deleted = true then 200 else 201,
         (t.insertLow rid body none rf).1) := by
      rcases hok with hok | hok
      · simp [RevTree.insert, h, hdup, hok, hgen]
      · have hie : t.revs.isEmpty = true := List.isEmpty_iff.mpr hok
        simp [RevTree.insert, h, hdup, hie, hgen]
    rw [hins]
    refine ⟨rfl, nr.selfId, by rw [hsid], nr, ?_, rfl, hrid⟩
    rw [hrevs]
    simp

lemma find?_map_selfId {l : List Rev} {g : Rev → Rev}
    (hs : ∀ r : Rev, (g r).selfId = r.selfId) (i : Nat) :
    (l.map g).find? (fun r => r.selfId == i) =
      (l.find? (fun r => r.selfId == i)).map g := by
  rw [List.find?_map]
  have hfe : ((fun r : Rev => r.selfId == i) ∘ g) = (fun r : Rev => r.selfId == i) := by
    funext r
    simp [Function.comp, hs r]
  rw [hfe]

/-- C7: a successful insert stores the supplied flags masked to
{Deleted, HasAttachments, KeepBody, Foreign} plus {Leaf, New}; the parent
loses its Leaf flag; the new node is IsConflict exactly when the parent was
a non-leaf or itself marked IsConflict, or when it is a second root added to
a non-empty tree. -/
theorem c7_insert_flags (t : RevTree) (rid : RevID) (body : List Nat) (rf : RFlags)
    (parentId : Option Nat) (allowConflict : Bool) (nid : Nat) (s : Nat) (t' : RevTree)
    (hsucc : t.insert rid body rf parentId allowConflict = (some nid, s, t')) :
    ∃ nr, t'.revs.getLast? = some nr ∧
      nr.selfId = nid ∧ nr.revID = rid ∧ nr.body = body ∧ nr.seq = 0 ∧
      nr.leaf = true ∧ nr.isNew = true ∧ nr.markedForPurge = false ∧
      nr.deleted = rf.deleted ∧ nr.hasAttachments = rf.hasAttachments ∧
      nr.keepBody = rf.keepBody ∧ nr.foreign = rf.foreign ∧
      nr.parent = parentId ∧
      (∀ pid p, parentId = some pid → getById t pid = some p →
        nr.isConflict = (!p.leaf || p.isConflict) ∧
        ∃ p', getById t' pid = some p' ∧ p'.leaf = false ∧
          p'.revID = p.revID ∧ p'.selfId = p.selfId) ∧
      (parentId = none → nr.isConflict = !t.revs.isEmpty) := by
  have hins : t' = (t.insertLow rid body parentId rf).1 ∧
      nid = (t.insertLow rid body parentId rf).2 := by
    unfold RevTree.insert at hsucc
    by_cases h0 : rid.gen = 0
    · rw [if_pos h0] at hsucc
      simp at hsucc
    · rw [if_neg h0] at hsucc
      by_cases hdup : (getByRevID t rid).isSome = true
      · rw [if_pos hdup] at hsucc
        simp at hsucc
      · rw [if_neg hdup] at hsucc
        cases parentId with
        | some pid =>
          cases hp : getById t pid with
          | none =>
            simp only [hp] at hsucc
            simp at hsucc
          | some p =>
            simp only [hp] at hsucc
            by_cases hcf : (!allowConflict && !p.leaf) = true
            · rw [if_pos hcf] at hsucc; simp at hsucc
            · rw [if_neg hcf] at hsucc
              by_cases hgen : rid.gen ≠ p.revID.gen + 1
              · rw [if_pos hgen] at hsucc; simp at hsucc
              · rw [if_neg hgen] at hsucc
                exact ⟨(congrArg (fun x => x.2.2) hsucc).symm,
                  (Option.some.inj (congrArg (fun x => x.1) hsucc)).symm⟩
        | none =>
          simp only [] at hsucc
          by_cases hcf : (!allowConflict && !t.revs.isEmpty) = true
          · rw [if_pos hcf] at hsucc; simp at hsucc
          · rw [if_neg hcf] at hsucc
            by_cases hgen : rid.gen ≠ 1
            · rw [if_pos hgen] at hsucc; simp at hsucc
            · rw [if_neg hgen] at hsucc
              exact ⟨(congrArg (fun x => x.2.2) hsucc).symm,
                (Option.some.inj (congrArg (fun x => x.1) hsucc)).symm⟩
  obtain ⟨ht', hnid⟩ := hins
  obtain ⟨g, nr, hrevs, hgp, hgl, hsid, hrid, hbody, hseq, hleaf, hnew, hdel, hatt,
    hkb, hfor, hmk, hpar, hconf⟩ := insertLow_decomp t rid body parentId rf
  have hsids : ∀ r : Rev, (g r).selfId = r.selfId := by
    intro r
    rw [hgp r]
  refine ⟨nr, ?_, by rw [hsid, hnid], hrid, hbody, hseq, hleaf, hnew, hmk,
    hdel, hatt, hkb, hfor, hpar, ?_, ?_⟩
  · rw [ht', hrevs]
    exact List.getLast?_concat _
  · intro pid p hpid hp
    constructor
    · rw [hconf, hpid]
      simp only [hp]
    · refine ⟨g p, ?_, ?_, ?_, hsids p⟩
      · unfold getById at hp ⊢
        rw [ht', hrevs, List.find?_append, find?_map_selfId hsids, hp]
        rfl
      · refine hgl pid hpid (by rw [hp]; rfl) p ?_
        have := (getById_mem hp).2
        simp [this]
      · rw [hgp p]
  · intro hnone
    rw [hconf, hnone]

/-- Witness for C7: inserting 2-b under leaf 1-a in a one-revision tree. -/
theorem c7_insert_flags_witness :
    ∃ nr, treeA2.revs.getLast? = some nr ∧ nr.leaf = true ∧ nr.isNew = true := by
  have h := c7_insert_flags treeA { gen := 2, digest := [2] } [9] {} (some 0) false
    1 201 treeA2 (by decide)
  obtain ⟨nr, hlast, _, _, _, _, hleaf, hnew, hrest⟩ := h
  exact ⟨nr, hlast, hleaf, hnew⟩

lemma chainOK_desc : ∀ (l : List RevID) (a : RevID), 1 ≤ a.gen →
    (∀ r ∈ l, 1 ≤ r.gen) → chainOK a.gen l = descendingByOne (a :: l) := by
  intro l
  induction l with
  | nil =>
    intro a _ _
    rfl
  | cons b rest ih =>
    intro a ha hl
    have hga : (a.gen == 0) = false := by
      simp
      omega
    have hb : 1 ≤ b.gen := hl b (by simp)
    have hr := ih b hb (fun r hr => hl r (by simp [hr]))
    simp only [chainOK, descendingByOne, hga, Bool.false_or]
    rw [hr]

lemma scanHistory_spec (t : RevTree) : ∀ (l : List RevID) (i g : Nat),
    scanHistory t l i g =
      (if chainOK g (l.take (l.findIdx (fun rid => (getByRevID t rid).isSome) + 1)) = true
       then some (i + l.findIdx (fun rid => (getByRevID t rid).isSome),
         ((l.drop (l.findIdx (fun rid => (getByRevID t rid).isSome))).head?.bind
           (fun rid => getByRevID t rid)).map (fun r => r.selfId))
       else none) := by
  intro l
  induction l with
  | nil =>
    intro i g
    simp [scanHistory, chainOK]
  | cons a rest ih =>
    intro i g
    by_cases hga : (g > 0 ∧ a.gen ≠ g - 1)
    · have hscan : scanHistory t (a :: rest) i g = none := by
        simp only [scanHistory]
        rw [if_pos hga]
      have hfac : (g == 0 || a.gen + 1 == g) = false := by
        obtain ⟨hg1, hg2⟩ := hga
        simp
        omega
      rw [hscan, List.take_succ_cons]
      simp [chainOK, hfac]
    · have hfac : (g == 0 || a.gen + 1 == g) = true := by
        push_neg at hga
        simp
        omega
      have hscan : scanHistory t (a :: rest) i g =
          (match getByRevID t a with
           | some r => some (i, some r.selfId)
           | none => scanHistory t rest (i + 1) a.gen) := by
        simp only [scanHistory]
        rw [if_neg hga]
      rw [hscan]
      cases hfound : getByRevID t a with
      | some r =>
        have hidx : (a :: rest).findIdx (fun rid => (getByRevID t rid).isSome) = 0 := by
          simp [List.findIdx_cons, hfound]
        rw [hidx]
        simp [chainOK, hfac, hfound]
      | none =>
        have hidx : (a :: rest).findIdx (fun rid => (getByRevID t rid).isSome) =
            rest.findIdx (fun rid => (getByRevID t rid).isSome) + 1 := by
          simp [List.findIdx_cons, hfound]
        rw [hidx, ih (i + 1) a.gen, List.take_succ_cons]
        simp only [chainOK, hfac, Bool.true_and, List.drop_succ_cons]
        have harith : i + 1 +
            rest.findIdx (fun rid => (getByRevID t rid).isSome) =
            i + (rest.findIdx (fun rid => (getByRevID t rid).isSome) + 1) := by
          omega
        rw [harith]

lemma insertLow_proj (t : RevTree) (rid : RevID) (b : List Nat)
    (pid : Option Nat) (rf : RFlags) :
    (t.insertLow rid b pid rf).1.revs.map revProj =
      t.revs.map revProj ++ [(rid, b, rf.foreign)] := by
  obtain ⟨g, nr, hrevs, hgp, _, _, hrid, hbody, _, _, _, _, _, _, hfor, _, _, _⟩ :=
    insertLow_decomp t rid b pid rf
  rw [hrevs, List.map_append, List.map_map]
  have hpg : revProj ∘ g = revProj := by
    funext r
    simp only [Function.comp, revProj]
    rw [hgp r]
  rw [hpg]
  simp [revProj, hrid, hbody, hfor]

lemma insertAncestors_proj : ∀ (rids : List RevID) (t : RevTree) (pid : Option Nat)
    (af : RFlags),
    (insertAncestors t rids pid af).1.revs.map revProj =
      t.revs.map revProj ++ rids.map (fun rid => (rid, ([] : List Nat), af.foreign)) := by
  intro rids
  induction rids with
  | nil =>
    intro t pid af
    simp [insertAncestors]
  | cons rid rest ih =>
    intro t pid af
    simp only [insertAncestors]
    rw [ih, insertLow_proj]
    simp

/-- C3: `insertHistory` returns the index of the first history entry already
present (or the history length when none is), or -1 when the generations of
the traversed prefix are not strictly decreasing by one; a return of 0 or -1
leaves the tree unchanged, and a positive return appends the missing
ancestors body-less in chronological order followed by `history[0]` with the
supplied body, leaving the existing revisions' content untouched. -/
theorem c3_insert_history (t : RevTree) (history : List RevID) (body : List Nat)
    (rf : RFlags) (hne : history ≠ [])
    (hgen : ∀ rid ∈ history, 1 ≤ rid.gen) :
    (descendingByOne (history.take
        (history.findIdx (fun rid => (getByRevID t rid).isSome) + 1)) = true →
      (t.insertHistory history body rf).1 =
        (history.findIdx (fun rid => (getByRevID t rid).isSome) : Int)) ∧
    (descendingByOne (history.take
        (history.findIdx (fun rid => (getByRevID t rid).isSome) + 1)) = false →
      (t.insertHistory history body rf).1 = -1) ∧
    ((t.insertHistory history body rf).1 ≤ 0 →
      (t.insertHistory history body rf).2 = t) ∧
    (∀ i : Nat, (t.insertHistory history body rf).1 = (i : Int) → 0 < i →
      ((t.insertHistory history body rf).2.revs.drop t.revs.length).map revProj =
        ((history.take i).drop 1).reverse.map
            (fun rid => (rid, ([] : List Nat), rf.foreign))
          ++ (history.take 1).map (fun rid => (rid, body, rf.foreign)) ∧
      ((t.insertHistory history body rf).2.revs.take t.revs.length).map revProj =
        t.revs.map revProj) := by
  rcases history with _ | ⟨h0, hrest⟩
  · exact absurd rfl hne
  set k := (h0 :: hrest).findIdx (fun rid => (getByRevID t rid).isSome) with hk
  have hco : chainOK 0 ((h0 :: hrest).take (k + 1)) =
      descendingByOne ((h0 :: hrest).take (k + 1)) := by
    rw [List.take_succ_cons]
    have h1 : chainOK 0 (h0 :: hrest.take k) = chainOK h0.gen (hrest.take k) := by
      simp [chainOK]
    rw [h1]
    exact chainOK_desc (hrest.take k) h0 (hgen h0 (by simp))
      (fun r hr => hgen r (by simp [List.mem_of_mem_take hr]))
  have hsc := scanHistory_spec t (h0 :: hrest) 0 0
  rw [← hk] at hsc
  cases hdesc : descendingByOne ((h0 :: hrest).take (k + 1)) with
  | false =>
    have hred : t.insertHistory (h0 :: hrest) body rf = (-1, t) := by
      unfold RevTree.insertHistory
      rw [hsc, if_neg (by rw [hco, hdesc]; simp)]
    refine ⟨?_, ?_, ?_, ?_⟩
    · intro h
      exact absurd h (by simp)
    · intro _
      rw [hred]
    · intro _
      rw [hred]
    · intro i hi _
      rw [hred] at hi
      simp at hi
  | true =>
    have hctrue : chainOK 0 ((h0 :: hrest).take (k + 1)) = true := by rw [hco, hdesc]
    by_cases hkpos : 0 < k
    · have hred : t.insertHistory (h0 :: hrest) body rf =
          ((k : Int),
            ((insertAncestors t (((h0 :: hrest).take k).drop 1).reverse
                ((((h0 :: hrest).drop k).head?.bind
                  (fun rid => getByRevID t rid)).map (fun r => r.selfId))
                { foreign := rf.foreign }).1.insertLow h0 body
              (insertAncestors t (((h0 :: hrest).take k).drop 1).reverse
                ((((h0 :: hrest).drop k).head?.bind
                  (fun rid => getByRevID t rid)).map (fun r => r.selfId))
                { foreign := rf.foreign }).2 rf).1) := by
        unfold RevTree.insertHistory
        rw [hsc, if_pos hctrue]
        simp only [Nat.zero_add]
        rw [if_pos hkpos]
      refine ⟨?_, ?_, ?_, ?_⟩
      · intro _
        rw [hred]
      · intro h
        exact absurd h (by simp)
      · intro hle
        rw [hred] at hle
        simp at hle
        omega
      · intro i hi _
        rw [hred] at hi
        simp only at hi
        have hik : k = i := by
          have := Int.ofNat_inj.mp hi
          exact this
        subst hik
        rw [hred]
        have hmap : (((insertAncestors t (((h0 :: hrest).take k).drop 1).reverse
            ((((h0 :: hrest).drop k).head?.bind
              (fun rid => getByRevID t rid)).map (fun r => r.selfId))
            { foreign := rf.foreign }).1.insertLow h0 body
          (insertAncestors t (((h0 :: hrest).take k).drop 1).reverse
            ((((h0 :: hrest).drop k).head?.bind
              (fun rid => getByRevID t rid)).map (fun r => r.selfId))
            { foreign := rf.foreign }).2 rf).1).revs.map revProj =
            t.revs.map revProj ++
              ((((h0 :: hrest).take k).drop 1).reverse.map
                (fun rid => (rid, ([] : List Nat), rf.foreign)) ++
                [(h0, body, rf.foreign)]) := by
          rw [insertLow_proj, insertAncestors_proj]
          simp
        constructor
        · rw [List.map_drop]
          rw [hmap]
          have hlen : t.revs.length = (t.revs.map revProj).length := by simp
          rw [hlen, List.drop_left]
          simp
        · rw [List.map_take]
          rw [hmap]
          have hlen : t.revs.length = (t.revs.map revProj).length := by simp
          rw [hlen, List.take_left]
    · have hk0 : k = 0 := by omega
      have hred : t.insertHistory (h0 :: hrest) body rf = ((k : Int), t) := by
        unfold RevTree.insertHistory
        rw [hsc, if_pos hctrue]
        simp only [Nat.zero_add]
        rw [if_neg hkpos]
      refine ⟨?_, ?_, ?_, ?_⟩
      · intro _
        rw [hred]
      · intro h
        exact absurd h (by simp)
      · intro _
        rw [hred]
      · intro i hi hipos
        rw [hred] at hi
        simp only at hi
        have := Int.ofNat_inj.mp hi
        omega

/-- Witness for C3: pulling the chain 3-x, 2-y onto the tree holding 1-a
finds the common ancestor at index 2. -/
theorem c3_insert_history_witness :
    (RevTree.insertHistory treeA [⟨3, [3]⟩, ⟨2, [2]⟩, ⟨1, [1]⟩] [8] {}).1 = (2 : Int) := by
  have h := c3_insert_history treeA [⟨3, [3]⟩, ⟨2, [2]⟩, ⟨1, [1]⟩] [8] {}
    (by decide) (by decide)
  have h1 := h.1 (by decide)
  exact h1.trans (by decide)

lemma kbClearChain_eq_takeWhile (t : RevTree) (c : Bool) : ∀ (fuel : Nat) (p : Option Nat),
    kbClearChain t c fuel p =
      (chainFrom t fuel p).takeWhile
        (fun id => !(c && !(((getById t id).map (fun r => r.isConflict)).getD false))) := by
  intro fuel
  induction fuel with
  | zero =>
    intro p
    cases p <;> simp [kbClearChain, chainFrom]
  | succ fuel ih =>
    intro p
    cases p with
    | none => simp [kbClearChain, chainFrom]
    | some i =>
      simp only [kbClearChain, chainFrom]
      cases hg : getById t i with
      | none => simp
      | some a =>
        simp only [List.takeWhile_cons, hg, Option.map_some', Option.getD_some]
        cases hcc : (c && !a.isConflict) with
        | true => simp [hcc]
        | false => simp [hcc, ih]

lemma chain_unconflicted (t : RevTree) (hclosed : conflictClosed t) :
    ∀ (fuel : Nat) (i : Nat) (r : Rev), getById t i = some r → r.isConflict = false →
      ∀ id ∈ chainFrom t fuel (some i),
        (((getById t id).map (fun x => x.isConflict)).getD false) = false := by
  intro fuel
  induction fuel with
  | zero =>
    intro i r _ _ id hid
    simp [chainFrom] at hid
  | succ fuel ih =>
    intro i r hg hrc id hid
    simp only [chainFrom, hg] at hid
    rcases List.mem_cons.mp hid with he | hm
    · subst he
      simp [hg, hrc]
    · cases hpar : r.parent with
      | none =>
        rw [hpar] at hm
        simp [chainFrom] at hm
      | some pp =>
        rw [hpar] at hm
        cases hgp : getById t pp with
        | none =>
          cases fuel with
          | zero => simp [chainFrom] at hm
          | succ f => simp [chainFrom, hgp] at hm
        | some prev =>
          have hprevc : prev.isConflict = false := by
            cases hpc : prev.isConflict with
            | false => rfl
            | true =>
              have := hclosed r (getById_mem hg).1 pp hpar prev hgp hpc
              rw [this] at hrc
              exact absurd hrc (by simp)
          exact ih pp prev hgp hprevc id hm

lemma takeWhile_congr_mem {l : List Nat} {p q : Nat → Bool}
    (h : ∀ a ∈ l, p a = q a) : l.takeWhile p = l.takeWhile q := by
  induction l with
  | nil => rfl
  | cons a rest ih =>
    simp only [List.takeWhile_cons]
    rw [h a (by simp)]
    cases q a with
    | false => simp
    | true =>
      simp only [if_true]
      rw [ih (fun b hb => h b (by simp [hb]))]

lemma takeWhile_all {l : List Nat} {p : Nat → Bool} (h : ∀ a ∈ l, p a = true) :
    l.takeWhile p = l := by
  induction l with
  | nil => rfl
  | cons a rest ih =>
    simp only [List.takeWhile_cons, h a (by simp)]
    rw [ih (fun b hb => h b (by simp [hb]))]
    simp

lemma insert_success_parts {t : RevTree} {rid : RevID} {body : List Nat} {rf : RFlags}
    {parentId : Option Nat} {allowConflict : Bool} {nid s : Nat} {t' : RevTree}
    (hsucc : t.insert rid body rf parentId allowConflict = (some nid, s, t')) :
    t' = (t.insertLow rid body parentId rf).1 ∧
      nid = (t.insertLow rid body parentId rf).2 := by
  unfold RevTree.insert at hsucc
  by_cases h0 : rid.gen = 0
  · rw [if_pos h0] at hsucc
    simp at hsucc
  · rw [if_neg h0] at hsucc
    by_cases hdup : (getByRevID t rid).isSome = true
    · rw [if_pos hdup] at hsucc
      simp at hsucc
    · rw [if_neg hdup] at hsucc
      cases parentId with
      | some pid =>
        cases hp : getById t pid with
        | none =>
          simp only [hp] at hsucc
          simp at hsucc
        | some p =>
          simp only [hp] at hsucc
          by_cases hcf : (!allowConflict && !p.leaf) = true
          · rw [if_pos hcf] at hsucc; simp at hsucc
          · rw [if_neg hcf] at hsucc
            by_cases hgen : rid.gen ≠ p.revID.gen + 1
            · rw [if_pos hgen] at hsucc; simp at hsucc
            · rw [if_neg hgen] at hsucc
              exact ⟨(congrArg (fun x => x.2.2) hsucc).symm,
                (Option.some.inj (congrArg (fun x => x.1) hsucc)).symm⟩
      | none =>
        simp only [] at hsucc
        by_cases hcf : (!allowConflict && !t.revs.isEmpty) = true
        · rw [if_pos hcf] at hsucc; simp at hsucc
        · rw [if_neg hcf] at hsucc
          by_cases hgen : rid.gen ≠ 1
          · rw [if_pos hgen] at hsucc; simp at hsucc
          · rw [if_neg hgen] at hsucc
            exact ⟨(congrArg (fun x => x.2.2) hsucc).symm,
              (Option.some.inj (congrArg (fun x => x.1) hsucc)).symm⟩

lemma insertLow_keepBody_shape {t : RevTree} {rid : RevID} {body : List Nat}
    {pid : Nat} {rf : RFlags} {p : Rev}
    (hp : getById t pid = some p) (hkb : rf.keepBody = true) :
    ∃ nr : Rev,
      (t.insertLow rid body (some pid) rf).1.revs =
        t.revs.map (fun r =>
          if (if r.selfId == pid then { r with leaf := false } else r).selfId ∈
              kbClearChain t (!p.leaf || p.isConflict) (t.revs.length + 1) (some pid)
          then { (if r.selfId == pid then { r with leaf := false } else r) with
                  keepBody := false }
          else (if r.selfId == pid then { r with leaf := false } else r)) ++ [nr] ∧
      nr.selfId = freshId t := by
  refine ⟨Rev.mk (freshId t) rid body 0 true rf.deleted rf.hasAttachments
    true rf.keepBody rf.foreign (!p.leaf || p.isConflict) false (some pid), ?_, rfl⟩
  unfold RevTree.insertLow
  simp only [hp, hkb, if_true]
  unfold clearKeepBodyOn updateRev
  simp only [List.map_map, Function.comp_def]
  congr 1
  cases hc : (!p.leaf || p.isConflict) <;> simp [hc]

/-- C8: inserting a KeepBody revision clears KeepBody on the ancestors of the
same branch, stopping at the first ancestor whose conflict-ness differs from
the branch conflict-ness of the parent (non-leaf or marked IsConflict);
every other revision keeps its KeepBody flag. -/
theorem c8_keep_body_discipline (t : RevTree) (rid : RevID) (body : List Nat)
    (rf : RFlags) (pid : Nat) (allowConflict : Bool) (nid s : Nat) (t' : RevTree)
    (hids : wfIds t) (hclosed : conflictClosed t) (hkb : rf.keepBody = true)
    (hsucc : t.insert rid body rf (some pid) allowConflict = (some nid, s, t'))
    (p : Rev) (hp : getById t pid = some p) :
    ∀ r ∈ t.revs, ∀ r', getById t' r.selfId = some r' →
      r'.keepBody =
        (if r.selfId ∈ (chainFrom t (t.revs.length + 1) (some pid)).takeWhile
            (fun id => (((getById t id).map (fun x => x.isConflict)).getD false)
              == (!p.leaf || p.isConflict))
         then false else r.keepBody) := by
  intro r hr r' hr'
  obtain ⟨ht', hnid⟩ := insert_success_parts hsucc
  obtain ⟨nr, hrevs, hfresh⟩ := insertLow_keepBody_shape hp hkb
  -- the code's cleared set agrees with the specification's
  have hchain : kbClearChain t (!p.leaf || p.isConflict) (t.revs.length + 1) (some pid) =
      (chainFrom t (t.revs.length + 1) (some pid)).takeWhile
        (fun id => (((getById t id).map (fun x => x.isConflict)).getD false)
          == (!p.leaf || p.isConflict)) := by
    rw [kbClearChain_eq_takeWhile]
    cases hc : (!p.leaf || p.isConflict) with
    | true =>
      apply takeWhile_congr_mem
      intro a _
      cases hfa : (((getById t a).map (fun x => x.isConflict)).getD false) <;>
        simp [hfa]
    | false =>
      have hpc : p.isConflict = false := by
        cases hb : p.isConflict with
        | false => rfl
        | true => rw [hb] at hc; simp at hc
      have hall := chain_unconflicted t hclosed (t.revs.length + 1) pid p hp hpc
      rw [takeWhile_all (fun a ha => by simp),
          takeWhile_all (fun a ha => by simp [hall a ha])]
  -- locate r in the mutated tree
  set g : Rev → Rev := (fun r =>
    if (if r.selfId == pid then { r with leaf := false } else r).selfId ∈
        kbClearChain t (!p.leaf || p.isConflict) (t.revs.length + 1) (some pid)
    then { (if r.selfId == pid then { r with leaf := false } else r) with
            keepBody := false }
    else (if r.selfId == pid then { r with leaf := false } else r)) with hgdef
  have hsids : ∀ x : Rev, (g x).selfId = x.selfId := by
    intro x
    rw [hgdef]
    by_cases h2 : (x.selfId == pid) = true <;>
      by_cases h1 : x.selfId ∈
        kbClearChain t (!p.leaf || p.isConflict) (t.revs.length + 1) (some pid) <;>
      simp [h1, h2]
  have hget : getById t' r.selfId = some (g r) := by
    unfold getById
    rw [ht', hrevs, List.find?_append, find?_map_selfId hsids]
    have := getById_eq_of_mem hids hr
    unfold getById at this
    rw [this]
    rfl
  have hr'g : r' = g r := by
    rw [hget] at hr'
    exact (Option.some.inj hr').symm
  rw [hr'g, hgdef]
  by_cases h2 : (r.selfId == pid) = true <;>
    by_cases h1 : r.selfId ∈
      kbClearChain t (!p.leaf || p.isConflict) (t.revs.length + 1) (some pid) <;>
    rw [← hchain] <;>
    simp [h1, h2]

/-- Witness for C8: inserting a KeepBody child under a KeepBody leaf root
clears the root's KeepBody flag. -/
theorem c8_keep_body_discipline_witness :
    ∃ r', getById treeKB2 0 = some r' ∧ r'.keepBody = false := by
  have h := c8_keep_body_discipline treeKB ⟨2, [2]⟩ [] { keepBody := true } 0 false
    1 201 treeKB2
    (by unfold wfIds; decide)
    (by intro r hr pid hpar p hgp hpc
        simp [treeKB] at hr
        subst hr
        simp [mkRev] at hpar)
    rfl (by decide) ({ mkRev 0 1 [1] true none with keepBody := true }) (by decide)
  refine ⟨mkRev 0 1 [1] false none, by decide, ?_⟩
  have h2 := h ({ mkRev 0 1 [1] true none with keepBody := true }) (by decide)
    (mkRev 0 1 [1] false none) (by decide)
  exact h2.trans (by decide)

lemma chainFrom_len_le_fuel (t : RevTree) : ∀ (F : Nat) (p : Option Nat),
    (chainFrom t F p).length ≤ F := by
  intro F
  induction F with
  | zero =>
    intro p
    cases p <;> simp [chainFrom]
  | succ F ih =>
    intro p
    cases p with
    | none => simp [chainFrom]
    | some i =>
      simp only [chainFrom]
      cases hg : getById t i with
      | none => simp
      | some r =>
        simp only [List.length_cons]
        have := ih r.parent
        omega

lemma chainFrom_mono (t : RevTree) : ∀ (F extra : Nat) (p : Option Nat),
    ∃ tail, chainFrom t (F + extra) p = chainFrom t F p ++ tail := by
  intro F
  induction F with
  | zero =>
    intro extra p
    refine ⟨chainFrom t (0 + extra) p, ?_⟩
    cases p <;> simp [chainFrom]
  | succ F ih =>
    intro extra p
    cases p with
    | none => exact ⟨[], by simp [chainFrom]⟩
    | some i =>
      have harith : F + 1 + extra = (F + extra) + 1 := by omega
      rw [harith]
      simp only [chainFrom]
      cases hg : getById t i with
      | none => exact ⟨[], by simp⟩
      | some r =>
        obtain ⟨tail, htail⟩ := ih extra r.parent
        refine ⟨tail, ?_⟩
        show i :: chainFrom t (F + extra) r.parent = (i :: chainFrom t F r.parent) ++ tail
        rw [htail]
        simp

lemma chainFrom_stable (t : RevTree) : ∀ (F extra : Nat) (p : Option Nat),
    (chainFrom t F p).length < F → chainFrom t (F + extra) p = chainFrom t F p := by
  intro F
  induction F with
  | zero =>
    intro extra p h
    exact absurd h (by omega)
  | succ F ih =>
    intro extra p h
    cases p with
    | none => simp [chainFrom]
    | some i =>
      have harith : F + 1 + extra = (F + extra) + 1 := by omega
      rw [harith]
      simp only [chainFrom] at h ⊢
      cases hg : getById t i with
      | none => rfl
      | some r =>
        rw [hg] at h
        simp only [List.length_cons] at h
        show i :: chainFrom t (F + extra) r.parent = i :: chainFrom t F r.parent
        rw [ih extra r.parent (by omega)]

lemma chainFrom_mem_lookup (t : RevTree) : ∀ (F : Nat) (p : Option Nat) (id : Nat),
    id ∈ chainFrom t F p → ∃ x, getById t id = some x ∧ x ∈ t.revs ∧ x.selfId = id := by
  intro F
  induction F with
  | zero =>
    intro p id h
    cases p <;> simp [chainFrom] at h
  | succ F ih =>
    intro p id h
    cases p with
    | none => simp [chainFrom] at h
    | some i =>
      simp only [chainFrom] at h
      cases hg : getById t i with
      | none => rw [hg] at h; simp at h
      | some r =>
        rw [hg] at h
        rcases List.mem_cons.mp h with he | hm
        · subst he
          exact ⟨r, hg, (getById_mem hg).1, (getById_mem hg).2⟩
        · exact ih r.parent id hm

lemma chain_gen_le (t : RevTree) (hpar : wfParent t) : ∀ (F : Nat) (j : Nat) (q : Rev),
    getById t j = some q → ∀ id ∈ chainFrom t F (some j), genOf t id ≤ q.revID.gen := by
  intro F
  induction F with
  | zero =>
    intro j q _ id h
    simp [chainFrom] at h
  | succ F ih =>
    intro j q hq id h
    simp only [chainFrom, hq] at h
    rcases List.mem_cons.mp h with he | hm
    · subst he
      simp [genOf, hq]
    · cases hpp : q.parent with
      | none => rw [hpp] at hm; simp [chainFrom] at hm
      | some pp =>
        rw [hpp] at hm
        obtain ⟨p', hp', hgen⟩ := hpar q (getById_mem hq).1 pp hpp
        have := ih pp p' hp' id hm
        omega

lemma chain_pairwise_gt (t : RevTree) (hpar : wfParent t) : ∀ (F : Nat) (j : Nat),
    (chainFrom t F (some j)).Pairwise (fun a b => genOf t b < genOf t a) := by
  intro F
  induction F with
  | zero => intro j; simp [chainFrom]
  | succ F ih =>
    intro j
    simp only [chainFrom]
    cases hq : getById t j with
    | none => simp
    | some q =>
      rw [List.pairwise_cons]
      constructor
      · intro id hid
        cases hpp : q.parent with
        | none => rw [hpp] at hid; simp [chainFrom] at hid
        | some pp =>
          rw [hpp] at hid
          obtain ⟨p', hp', hgen⟩ := hpar q (getById_mem hq).1 pp hpp
          have hle := chain_gen_le t hpar F pp p' hp' id hid
          have : genOf t j = q.revID.gen := by simp [genOf, hq]
          omega
      · cases hpp : q.parent with
        | none => simp [chainFrom]
        | some pp => exact ih pp

lemma chain_nodup (t : RevTree) (hpar : wfParent t) (F : Nat) (j : Nat) :
    (chainFrom t F (some j)).Nodup := by
  have hp := chain_pairwise_gt t hpar F j
  exact hp.imp (fun hlt => by intro he; subst he; omega)

lemma chain_len_le_revs (t : RevTree) (hids : wfIds t) (hpar : wfParent t)
    (F : Nat) (j : Nat) : (chainFrom t F (some j)).length ≤ t.revs.length := by
  have hnd := chain_nodup t hpar F j
  have hsub : chainFrom t F (some j) ⊆ t.revs.map (fun r => r.selfId) := by
    intro id hid
    obtain ⟨x, _, hx, hxid⟩ := chainFrom_mem_lookup t F (some j) id hid
    exact List.mem_map.mpr ⟨x, hx, hxid⟩
  calc (chainFrom t F (some j)).length
      = (chainFrom t F (some j)).toFinset.card := (List.toFinset_card_of_nodup hnd).symm
    _ ≤ (t.revs.map (fun r => r.selfId)).toFinset.card := by
        apply Finset.card_le_card
        intro x hx
        rw [List.mem_toFinset] at hx ⊢
        exact hsub hx
    _ ≤ (t.revs.map (fun r => r.selfId)).length := List.toFinset_card_le _
    _ = t.revs.length := List.length_map _ _

lemma chainFrom_fuel_ge (t : RevTree) (hids : wfIds t) (hpar : wfParent t)
    (p : Option Nat) : ∀ F, t.revs.length ≤ F →
    chainFrom t F p = chainFrom t t.revs.length p := by
  intro F hF
  cases p with
  | none => cases F <;> simp [chainFrom]
  | some j =>
    obtain ⟨extra, hex⟩ : ∃ extra, F = t.revs.length + extra := ⟨F - t.revs.length, by omega⟩
    subst hex
    by_cases hlt : (chainFrom t t.revs.length (some j)).length < t.revs.length
    · exact chainFrom_stable t t.revs.length extra (some j) hlt
    · have hle1 := chainFrom_len_le_fuel t t.revs.length (some j)
      have heq : (chainFrom t t.revs.length (some j)).length = t.revs.length := by omega
      obtain ⟨tail, htail⟩ := chainFrom_mono t t.revs.length extra (some j)
      have hle2 := chain_len_le_revs t hids hpar (t.revs.length + extra) j
      rw [htail] at hle2
      rw [List.length_append, heq] at hle2
      have : tail = [] := List.eq_nil_of_length_eq_zero (by omega)
      rw [htail, this, List.append_nil]

lemma markFn_selfId (M : List Nat) (r : Rev) : (markFn M r).selfId = r.selfId := by
  unfold markFn
  by_cases h : r.selfId ∈ M <;> simp [h]

lemma markFn_flag (M : List Nat) (r : Rev) :
    (markFn M r).markedForPurge = (decide (r.selfId ∈ M) || r.markedForPurge) := by
  unfold markFn
  by_cases h : r.selfId ∈ M <;> simp [h]

lemma clearFn_selfId (u : RevTree) (r : Rev) : (clearFn u r).selfId = r.selfId := by
  unfold clearFn
  cases hp : r.parent with
  | none => simp only [hp]
  | some pid =>
    simp only [hp]
    by_cases h : ((getById u pid).map (fun p : Rev => p.markedForPurge)).getD false <;>
      simp [h]

lemma clearFn_flag (u : RevTree) (r : Rev) :
    (clearFn u r).markedForPurge = r.markedForPurge := by
  unfold clearFn
  cases hp : r.parent with
  | none => simp only [hp]
  | some pid =>
    simp only [hp]
    by_cases h : ((getById u pid).map (fun p : Rev => p.markedForPurge)).getD false <;>
      simp [h]

lemma markTree_getById (t : RevTree) (M : List Nat) (i : Nat) :
    getById (markTree t M) i = (getById t i).map (markFn M) := by
  unfold getById markTree
  exact find?_map_selfId (markFn_selfId M) i

lemma clearPP_getById (u : RevTree) (i : Nat) :
    getById (clearPurgedParents u) i = (getById u i).map (clearFn u) := by
  unfold getById clearPurgedParents
  exact find?_map_selfId (clearFn_selfId u) i

lemma compact_getById_none (u : RevTree) (i : Nat) (h : getById u i = none) :
    getById (compact u) i = none := by
  unfold getById at h ⊢
  rw [List.find?_eq_none] at h ⊢
  intro x hx
  exact h x (List.mem_of_mem_filter hx)

lemma wfIds_mapped (t : RevTree) (g : Rev → Rev) (hg : ∀ r, (g r).selfId = r.selfId)
    (h : wfIds t) : wfIds { t with revs := t.revs.map g } := by
  unfold wfIds at h ⊢
  simp only [List.map_map]
  have : (fun r : Rev => r.selfId) ∘ g = fun r : Rev => r.selfId := by
    funext r
    simp [Function.comp, hg r]
  rw [this]
  exact h

lemma wfIds_compact (u : RevTree) (h : wfIds u) : wfIds (compact u) := by
  unfold wfIds at h ⊢
  exact ((List.filter_sublist u.revs).map (fun r => r.selfId)).nodup h

lemma compact_getById_some (u : RevTree) (hids : wfIds u) (r : Rev) (hr : r ∈ u.revs)
    (hkeep : r.markedForPurge = false) : getById (compact u) r.selfId = some r := by
  have hmem : r ∈ (compact u).revs := by
    unfold compact
    simp only [List.mem_filter]
    exact ⟨hr, by simp [hkeep]⟩
  exact getById_eq_of_mem (wfIds_compact u hids) hmem


lemma getById_some (t : RevTree) (i : Nat) (r : Rev) (h : getById t i = some r) :
    r ∈ t.revs ∧ r.selfId = i := by
  refine ⟨List.mem_of_find?_eq_some h, ?_⟩
  have hp := List.find?_some h
  simpa using hp

lemma chainFrom_none (t : RevTree) (f : Nat) : chainFrom t f none = [] := by
  cases f <;> rfl

lemma takeWhile_prefix_len {α : Type} (p : α → Bool) :
    ∀ (l1 l2 : List α), (l1.takeWhile p).length ≤ ((l1 ++ l2).takeWhile p).length := by
  intro l1
  induction l1 with
  | nil => intro l2; simp
  | cons a l ih =>
    intro l2
    simp only [List.cons_append, List.takeWhile_cons]
    cases hpa : p a
    · simp
    · simp only [if_true]
      simp only [List.length_cons]
      have h2 := ih l2
      simp only [Nat.add_le_add_iff_right]
      exact h2

lemma takeWhile_len_le_of_drop {α : Type} (p : α → Bool) :
    ∀ (d : Nat) (l : List α), (∀ x ∈ l.drop d, p x = false) →
      (l.takeWhile p).length ≤ d := by
  intro d
  induction d with
  | zero =>
    intro l h
    cases l with
    | nil => simp
    | cons a l =>
      have ha := h a (by simp)
      simp [List.takeWhile_cons, ha]
  | succ d ih =>
    intro l h
    cases l with
    | nil => simp
    | cons a l =>
      cases hpa : p a
      · simp [List.takeWhile_cons, hpa]
      · have hrec := ih l (by intro x hx; exact h x (by simpa using hx))
        simp only [List.takeWhile_cons, hpa, if_true, List.length_cons]
        omega

lemma takeWhile_eq_filter {p : Rev → Bool} :
    ∀ {l : List Rev}, l.Pairwise (fun a b => p a = false → p b = false) →
      l.takeWhile p = l.filter p := by
  intro l
  induction l with
  | nil => intro _; rfl
  | cons a l ih =>
    intro h
    rw [List.pairwise_cons] at h
    cases hpa : p a
    · have hnil : l.filter p = [] := List.filter_eq_nil_iff.mpr (by
        intro b hb
        simp [h.1 b hb hpa])
      simp [List.takeWhile_cons, List.filter_cons, hpa, hnil]
    · simp [List.takeWhile_cons, List.filter_cons, hpa, ih h.2]

lemma revLE_leaf_mono {a b : Rev} (h : revLE a b = true) (ha : a.leaf = false) :
    b.leaf = false := by
  cases hb : b.leaf
  · rfl
  · exfalso
    have hcmp : compareRevs b a = false := by
      unfold revLE at h
      simpa using h
    rw [compareRevs_rank] at hcmp
    have hrank : rank b < rank a := by
      unfold rank
      rw [ha, hb]
      split_ifs <;> simp_all <;> omega
    simp [hrank] at hcmp

lemma pruneWalked_eq_filter (t : RevTree) (hsorted : wfSorted t) :
    pruneWalked t = t.revs.filter (fun r => r.leaf) := by
  unfold pruneWalked
  cases hs : t.sorted
  · simp
  · simp only [if_pos]
    exact takeWhile_eq_filter ((hsorted hs).imp (fun hab => revLE_leaf_mono hab))

lemma pruneMarkEvents_mem (t : RevTree) (d : Nat) (hsorted : wfSorted t) (i : Nat) :
    i ∈ pruneMarkEvents t d ↔
      ∃ r ∈ t.revs, r.leaf = true ∧
        i ∈ (chainFrom t t.revs.length (some r.selfId)).drop d := by
  unfold pruneMarkEvents
  rw [pruneWalked_eq_filter t hsorted]
  rw [List.mem_flatten]
  constructor
  · rintro ⟨b, hb, hib⟩
    rw [List.mem_map] at hb
    obtain ⟨r, hr, rfl⟩ := hb
    rw [List.mem_filter] at hr
    exact ⟨r, hr.1, by simpa using hr.2, hib⟩
  · rintro ⟨r, hr, hleaf, hi⟩
    exact ⟨(chainFrom t t.revs.length (some r.selfId)).drop d,
      List.mem_map.mpr ⟨r, List.mem_filter.mpr ⟨hr, by simp [hleaf]⟩, rfl⟩, hi⟩

lemma pruneMarkedB_iff (t : RevTree) (d : Nat) (i : Nat) :
    pruneMarkedB t d i = true ↔
      ∃ r ∈ t.revs, r.leaf = true ∧
        i ∈ (chainFrom t t.revs.length (some r.selfId)).drop d := by
  unfold pruneMarkedB
  rw [List.any_eq_true]
  constructor
  · rintro ⟨r, hr, hp⟩
    simp only [Bool.and_eq_true, decide_eq_true_eq] at hp
    exact ⟨r, hr, hp.1, hp.2⟩
  · rintro ⟨r, hr, h1, h2⟩
    exact ⟨r, hr, by simp [h1, h2]⟩

lemma pruneMarkEvents_nil_of_short (t : RevTree) (d : Nat) (hids : wfIds t)
    (hpar : wfParent t) (h : t.revs.length ≤ d) : pruneMarkEvents t d = [] := by
  unfold pruneMarkEvents
  rw [List.flatten_eq_nil_iff]
  intro b hb
  rw [List.mem_map] at hb
  obtain ⟨r, _, rfl⟩ := hb
  exact List.drop_eq_nil_of_le (le_trans (chain_len_le_revs t hids hpar _ _) h)

lemma pruned_wfIds (t : RevTree) (M : List Nat) (hids : wfIds t) :
    wfIds (clearPurgedParents (markTree t M)) := by
  unfold clearPurgedParents
  exact wfIds_mapped (markTree t M) _ (clearFn_selfId (markTree t M))
    (by unfold markTree
        exact wfIds_mapped t _ (markFn_selfId M) hids)

lemma pruned_getById_absent (t : RevTree) (M : List Nat) (i : Nat)
    (h : getById t i = none) :
    getById (compact (clearPurgedParents (markTree t M))) i = none := by
  apply compact_getById_none
  rw [clearPP_getById, markTree_getById, h]
  rfl

lemma compact_getById_marked (u : RevTree) (hids : wfIds u) (i : Nat) (r : Rev)
    (h : getById u i = some r) (hm : r.markedForPurge = true) :
    getById (compact u) i = none := by
  obtain ⟨hmem, hrid⟩ := getById_some u i r h
  unfold compact getById
  rw [List.find?_eq_none]
  intro x hx
  rw [List.mem_filter] at hx
  intro hbeq
  have hxid : x.selfId = i := by simpa using hbeq
  have hx1 : getById u x.selfId = some x := getById_eq_of_mem hids hx.1
  rw [hxid, h] at hx1
  have hxr : r = x := by
    injection hx1
  subst hxr
  rw [hm] at hx
  simp at hx

lemma compact_getById_unmarked (u : RevTree) (hids : wfIds u) (i : Nat) (r : Rev)
    (h : getById u i = some r) (hm : r.markedForPurge = false) :
    getById (compact u) i = some r := by
  obtain ⟨hmem, hrid⟩ := getById_some u i r h
  have hres := compact_getById_some u hids r hmem hm
  rwa [hrid] at hres

lemma pruned_getById_marked (t : RevTree) (M : List Nat) (hids : wfIds t)
    (i : Nat) (r : Rev) (hr : getById t i = some r) (hi : i ∈ M) :
    getById (compact (clearPurgedParents (markTree t M))) i = none := by
  obtain ⟨hmem, hrid⟩ := getById_some t i r hr
  have hu : getById (clearPurgedParents (markTree t M)) i =
      some (clearFn (markTree t M) (markFn M r)) := by
    rw [clearPP_getById, markTree_getById, hr]
    rfl
  refine compact_getById_marked _ (pruned_wfIds t M hids) i _ hu ?_
  rw [clearFn_flag, markFn_flag, hrid]
  simp [hi]

lemma cm_eq (t : RevTree) (M : List Nat) (hpar : wfParent t)
    (hclean : ∀ r ∈ t.revs, r.markedForPurge = false) (r : Rev) (hr : r ∈ t.revs)
    (hnm : r.selfId ∉ M) :
    clearFn (markTree t M) (markFn M r) =
      (match r.parent with
        | some pid => if pid ∈ M then { r with parent := none } else r
        | none => r) := by
  have hmr : markFn M r = r := by
    unfold markFn
    simp [hnm]
  rw [hmr]
  unfold clearFn
  cases hp : r.parent with
  | none => simp only [hp]
  | some pid =>
    simp only [hp]
    obtain ⟨p, hgp, _⟩ := hpar r hr pid hp
    obtain ⟨hpmem, hpid⟩ := getById_some t pid p hgp
    rw [markTree_getById, hgp]
    by_cases hpm : pid ∈ M
    · simp [markFn_flag, hpid, hpm]
    · simp [markFn_flag, hpid, hpm, hclean p hpmem]

lemma pruned_getById_pos (t : RevTree) (M : List Nat) (hids : wfIds t)
    (hpar : wfParent t) (hclean : ∀ r ∈ t.revs, r.markedForPurge = false)
    (i : Nat) (r : Rev) (hr : getById t i = some r) (hi : i ∉ M) :
    getById (compact (clearPurgedParents (markTree t M))) i =
      some (match r.parent with
        | some pid => if pid ∈ M then { r with parent := none } else r
        | none => r) := by
  obtain ⟨hmem, hrid⟩ := getById_some t i r hr
  have hnm : r.selfId ∉ M := by
    rw [hrid]
    exact hi
  have hu : getById (clearPurgedParents (markTree t M)) i =
      some (match r.parent with
        | some pid => if pid ∈ M then { r with parent := none } else r
        | none => r) := by
    rw [clearPP_getById, markTree_getById, hr]
    exact congrArg some (cm_eq t M hpar hclean r hmem hnm)
  refine compact_getById_unmarked _ (pruned_wfIds t M hids) i _ hu ?_
  cases hp : r.parent with
  | none =>
    simp only [hp]
    exact hclean r hmem
  | some pid =>
    simp only [hp]
    by_cases hpm : pid ∈ M <;> simp [hpm, hclean r hmem]

lemma chain_pruned (t : RevTree) (M : List Nat) (hids : wfIds t) (hpar : wfParent t)
    (hclean : ∀ r ∈ t.revs, r.markedForPurge = false) :
    ∀ (f : Nat) (i : Nat),
      chainFrom (compact (clearPurgedParents (markTree t M))) f (some i) =
        (chainFrom t f (some i)).takeWhile (fun j => !decide (j ∈ M)) := by
  intro f
  induction f with
  | zero =>
    intro i
    simp [chainFrom]
  | succ f ih =>
    intro i
    cases hr : getById t i with
    | none =>
      rw [show chainFrom t (f + 1) (some i) = [] from by simp [chainFrom, hr]]
      simp [chainFrom, pruned_getById_absent t M i hr]
    | some r =>
      by_cases hi : i ∈ M
      · have h1 := pruned_getById_marked t M hids i r hr hi
        rw [show chainFrom (compact (clearPurgedParents (markTree t M))) (f + 1) (some i)
            = [] from by simp [chainFrom, h1]]
        rw [chainFrom_cons hr (Nat.succ_pos f)]
        simp [List.takeWhile_cons, hi]
      · have h2 := pruned_getById_pos t M hids hpar hclean i r hr hi
        rw [chainFrom_cons h2 (Nat.succ_pos f), chainFrom_cons hr (Nat.succ_pos f)]
        rw [List.takeWhile_cons]
        simp only [hi, decide_False, Bool.not_false, if_true, Nat.succ_sub_one]
        cases hp : r.parent with
        | none =>
          simp only [hp, chainFrom_none]
          simp
        | some pid =>
          by_cases hpm : pid ∈ M
          · simp only [hp, if_pos hpm, chainFrom_none]
            cases f with
            | zero => simp [chainFrom]
            | succ g =>
              obtain ⟨p, hgp, _⟩ := hpar r (getById_some t i r hr).1 pid hp
              rw [chainFrom_cons hgp (Nat.succ_pos g)]
              simp [List.takeWhile_cons, hpm]
          · simp only [hp, if_neg hpm]
            rw [ih pid]

lemma prune_survivors (t : RevTree) (M : List Nat) (hpar : wfParent t)
    (hclean : ∀ r ∈ t.revs, r.markedForPurge = false) :
    (compact (clearPurgedParents (markTree t M))).revs =
      (t.revs.filter (fun r => decide (r.selfId ∉ M))).map
        (fun r => match r.parent with
          | some pid => if pid ∈ M then { r with parent := none } else r
          | none => r) := by
  have h1 : (compact (clearPurgedParents (markTree t M))).revs =
      ((t.revs.map (markFn M)).map (clearFn (markTree t M))).filter
        (fun r => !r.markedForPurge) := rfl
  rw [h1, List.map_map, List.filter_map]
  have h2 : t.revs.filter ((fun r => !r.markedForPurge) ∘ (clearFn (markTree t M) ∘ markFn M))
      = t.revs.filter (fun r => decide (r.selfId ∉ M)) := by
    apply List.filter_congr
    intro r hr
    show (!(clearFn (markTree t M) (markFn M r)).markedForPurge) = _
    rw [clearFn_flag, markFn_flag, hclean r hr]
    simp
  rw [h2]
  apply List.map_congr_left
  intro r hr
  rw [List.mem_filter] at hr
  show clearFn (markTree t M) (markFn M r) = _
  exact cm_eq t M hpar hclean r hr.1 (by simpa using hr.2)

lemma filter_marked_le (t : RevTree) (M : List Nat) (hids : wfIds t) :
    (t.revs.filter (fun r => decide (r.selfId ∈ M))).length ≤ M.length := by
  have hnd : ((t.revs.filter (fun r => decide (r.selfId ∈ M))).map
      (fun r => r.selfId)).Nodup := by
    have hsub : ((t.revs.filter (fun r => decide (r.selfId ∈ M))).map
        (fun r => r.selfId)).Sublist (t.revs.map (fun r => r.selfId)) :=
      List.Sublist.map _ (List.filter_sublist t.revs)
    exact hsub.nodup hids
  have hsubm : ∀ x ∈ (t.revs.filter (fun r => decide (r.selfId ∈ M))).map
      (fun r => r.selfId), x ∈ M := by
    intro x hx
    rw [List.mem_map] at hx
    obtain ⟨r, hr, rfl⟩ := hx
    rw [List.mem_filter] at hr
    simpa using hr.2
  have hcard : ((t.revs.filter (fun r => decide (r.selfId ∈ M))).map
      (fun r => r.selfId)).toFinset.card ≤ M.toFinset.card := by
    apply Finset.card_le_card
    intro x hx
    rw [List.mem_toFinset] at hx ⊢
    exact hsubm x hx
  have hlen := List.toFinset_card_of_nodup hnd
  have hMle := M.toFinset_card_le
  rw [List.length_map] at hlen
  omega

lemma survivors_nil (t : RevTree) :
    (t.revs.filter (fun r => decide (r.selfId ∉ ([] : List Nat)))).map
      (fun r => match r.parent with
        | some pid => if pid ∈ ([] : List Nat) then { r with parent := none } else r
        | none => r) = t.revs := by
  have hf : t.revs.filter (fun r => decide (r.selfId ∉ ([] : List Nat))) = t.revs :=
    List.filter_eq_self.mpr (by intro a _; simp)
  rw [hf]
  have hid : ∀ r ∈ t.revs, (match r.parent with
      | some pid => if pid ∈ ([] : List Nat) then { r with parent := none } else r
      | none => r) = r := by
    intro r _
    cases hp : r.parent <;> simp [hp]
  rw [List.map_congr_left hid]
  exact List.map_id _

lemma clearTarget_proj (M : List Nat) (r : Rev) :
    ((match r.parent with
      | some pid => if pid ∈ M then { r with parent := none } else r
      | none => r) : Rev).selfId = r.selfId ∧
    ((match r.parent with
      | some pid => if pid ∈ M then { r with parent := none } else r
      | none => r) : Rev).leaf = r.leaf := by
  cases hp : r.parent with
  | none => simp [hp]
  | some pid =>
    simp only [hp]
    by_cases hpm : pid ∈ M <;> simp [hpm]

lemma length_filter_split (l : List Rev) (M : List Nat) :
    l.length = (l.filter (fun r => decide (r.selfId ∈ M))).length +
      (l.filter (fun r => decide (r.selfId ∉ M))).length := by
  induction l with
  | nil => rfl
  | cons a l ih =>
    by_cases ha : a.selfId ∈ M <;> simp [List.filter_cons, ha, ih] <;> omega

/-- C5, counterexample to the returned count: on the three-revision tree whose
root has two leaf children, `prune 1` walks both leaf chains, marks the shared
root twice, and reports 2 marking events — but only one revision (the root) is
actually purged, so the return value is not "the count of revisions purged". -/
theorem c5_prune_overcount :
    (RevTree.prune treeP 1).1 = 2 ∧
    treeP.revs.length - (RevTree.prune treeP 1).2.revs.length = 1 := by
  constructor
  · decide
  · decide

/-- C5 (amended): for a well-formed tree all of whose revisions start unmarked,
`prune(maxDepth)` marks exactly the identities lying deeper than `maxDepth` on
the parent chain of some leaf, the pruned tree keeps exactly the unmarked
revisions in order with parent links into the marked set cleared, the returned
value is the number of marking events — an upper bound on, and in general not
equal to, the number of revisions purged — and afterwards every leaf's parent
chain has length at most `maxDepth`. -/
theorem c5_prune_amended (t : RevTree) (d : Nat) (hd : 0 < d)
    (hids : wfIds t) (hpar : wfParent t) (hsorted : wfSorted t)
    (hclean : ∀ r ∈ t.revs, r.markedForPurge = false) :
    (∀ i, i ∈ pruneMarkEvents t d ↔ pruneMarkedB t d i = true) ∧
    ((RevTree.prune t d).2.revs =
      (t.revs.filter (fun r => decide (r.selfId ∉ pruneMarkEvents t d))).map
        (fun r => match r.parent with
          | some pid =>
            if pid ∈ pruneMarkEvents t d then { r with parent := none } else r
          | none => r)) ∧
    (RevTree.prune t d).1 = (pruneMarkEvents t d).length ∧
    t.revs.length - (RevTree.prune t d).2.revs.length ≤ (RevTree.prune t d).1 ∧
    (∀ r ∈ (RevTree.prune t d).2.revs, r.leaf = true →
      (chainFrom (RevTree.prune t d).2 (RevTree.prune t d).2.revs.length
        (some r.selfId)).length ≤ d) := by
  have hmem : ∀ i, i ∈ pruneMarkEvents t d ↔ pruneMarkedB t d i = true := by
    intro i
    rw [pruneMarkEvents_mem t d hsorted i, pruneMarkedB_iff t d i]
  by_cases h1 : t.revs.length ≤ d
  · have hnil : pruneMarkEvents t d = [] := pruneMarkEvents_nil_of_short t d hids hpar h1
    have hpr : RevTree.prune t d = (0, t) := by
      unfold RevTree.prune
      rw [if_pos h1]
    refine ⟨hmem, ?_, ?_, ?_, ?_⟩
    · rw [hpr, hnil]
      show t.revs = _
      exact (survivors_nil t).symm
    · simp [hpr, hnil]
    · simp [hpr]
    · rw [hpr]
      intro r' hr' hleaf'
      show (chainFrom t t.revs.length (some r'.selfId)).length ≤ d
      exact le_trans (chainFrom_len_le_fuel t _ _) h1
  · by_cases h2 : (pruneMarkEvents t d).length = 0
    · have hnil : pruneMarkEvents t d = [] := List.eq_nil_of_length_eq_zero h2
      have hpr : RevTree.prune t d = (0, t) := by
        unfold RevTree.prune
        rw [if_neg h1]
        simp [h2]
      refine ⟨hmem, ?_, ?_, ?_, ?_⟩
      · rw [hpr, hnil]
        show t.revs = _
        exact (survivors_nil t).symm
      · simp [hpr, hnil]
      · simp [hpr]
      · rw [hpr]
        intro r' hr' hleaf'
        show (chainFrom t t.revs.length (some r'.selfId)).length ≤ d
        have hdrop : (chainFrom t t.revs.length (some r'.selfId)).drop d = [] := by
          apply List.eq_nil_iff_forall_not_mem.mpr
          intro x hx
          have hxmem : x ∈ pruneMarkEvents t d :=
            (pruneMarkEvents_mem t d hsorted x).mpr ⟨r', hr', hleaf', hx⟩
          rw [hnil] at hxmem
          simp at hxmem
        have hlen := List.drop_eq_nil_iff.mp hdrop
        omega
    · have hpr : RevTree.prune t d = ((pruneMarkEvents t d).length,
          compact (clearPurgedParents (markTree t (pruneMarkEvents t d)))) := by
        unfold RevTree.prune
        rw [if_neg h1]
        simp [h2]
      refine ⟨hmem, ?_, ?_, ?_, ?_⟩
      · rw [hpr]
        exact prune_survivors t (pruneMarkEvents t d) hpar hclean
      · rw [hpr]
      · rw [hpr]
        have hlen2 : (compact (clearPurgedParents
            (markTree t (pruneMarkEvents t d)))).revs.length
            = (t.revs.filter
                (fun r => decide (r.selfId ∉ pruneMarkEvents t d))).length := by
          rw [prune_survivors t (pruneMarkEvents t d) hpar hclean, List.length_map]
        have hsplit := length_filter_split t.revs (pruneMarkEvents t d)
        have hle := filter_marked_le t (pruneMarkEvents t d) hids
        show t.revs.length - (compact (clearPurgedParents
            (markTree t (pruneMarkEvents t d)))).revs.length
          ≤ (pruneMarkEvents t d).length
        omega
      · rw [hpr]
        intro r' hr' hleaf'
        replace hr' : r' ∈ (compact (clearPurgedParents
            (markTree t (pruneMarkEvents t d)))).revs := hr'
        rw [prune_survivors t (pruneMarkEvents t d) hpar hclean] at hr'
        rw [List.mem_map] at hr'
        obtain ⟨r, hrf, rfl⟩ := hr'
        rw [List.mem_filter] at hrf
        obtain ⟨hrmem, hrnm0⟩ := hrf
        obtain ⟨hgid, hgleaf⟩ := clearTarget_proj (pruneMarkEvents t d) r
        have hrleaf : r.leaf = true := by
          rw [← hgleaf]
          exact hleaf'
        show (chainFrom (compact (clearPurgedParents (markTree t (pruneMarkEvents t d))))
            (compact (clearPurgedParents (markTree t (pruneMarkEvents t d)))).revs.length
            (some ((match r.parent with
              | some pid =>
                if pid ∈ pruneMarkEvents t d then { r with parent := none } else r
              | none => r) : Rev).selfId)).length ≤ d
        rw [hgid]
        rw [chain_pruned t (pruneMarkEvents t d) hids hpar hclean]
        obtain ⟨tail, htail⟩ := chainFrom_mono t
          (compact (clearPurgedParents (markTree t (pruneMarkEvents t d)))).revs.length
          (t.revs.length -
            (compact (clearPurgedParents (markTree t (pruneMarkEvents t d)))).revs.length)
          (some r.selfId)
        have hF : (compact (clearPurgedParents
            (markTree t (pruneMarkEvents t d)))).revs.length ≤ t.revs.length := by
          rw [prune_survivors t (pruneMarkEvents t d) hpar hclean, List.length_map]
          exact List.length_filter_le _ _
        have hfe : (compact (clearPurgedParents
              (markTree t (pruneMarkEvents t d)))).revs.length
            + (t.revs.length - (compact (clearPurgedParents
                (markTree t (pruneMarkEvents t d)))).revs.length)
            = t.revs.length := by omega
        rw [hfe] at htail
        have hmono := takeWhile_prefix_len (fun j => !decide (j ∈ pruneMarkEvents t d))
          (chainFrom t (compact (clearPurgedParents
            (markTree t (pruneMarkEvents t d)))).revs.length (some r.selfId)) tail
        rw [← htail] at hmono
        have hfull : ((chainFrom t t.revs.length (some r.selfId)).takeWhile
            (fun j => !decide (j ∈ pruneMarkEvents t d))).length ≤ d := by
          apply takeWhile_len_le_of_drop
          intro x hx
          have hxmem : x ∈ pruneMarkEvents t d :=
            (pruneMarkEvents_mem t d hsorted x).mpr ⟨r, hrmem, hrleaf, hx⟩
          simp [hxmem]
        exact le_trans hmono hfull

/-- C5 witness: the amended theorem applied to the concrete tree `treeP` with
`maxDepth = 1`. -/
theorem c5_prune_amended_witness :
    0 < 1 ∧ (RevTree.prune treeP 1).1 = (pruneMarkEvents treeP 1).length := by
  refine ⟨by decide, (c5_prune_amended treeP 1 (by decide) ?_ ?_ ?_ ?_).2.2.1⟩
  · unfold wfIds
    decide
  · intro r hr pid hp
    simp only [treeP, List.mem_cons, List.not_mem_nil, or_false] at hr
    rcases hr with h | h | h
    · subst h
      simp [mkRev] at hp
    · subst h
      simp only [mkRev] at hp
      have hpid : pid = 0 := by
        injection hp with h0
        omega
      subst hpid
      exact ⟨mkRev 0 1 [1] false none, by decide, by decide⟩
    · subst h
      simp only [mkRev] at hp
      have hpid : pid = 0 := by
        injection hp with h0
        omega
      subst hpid
      exact ⟨mkRev 0 1 [1] false none, by decide, by decide⟩
  · intro hs
    simp [treeP] at hs
  · intro r hr
    simp only [treeP, List.mem_cons, List.not_mem_nil, or_false] at hr
    rcases hr with h | h | h <;> subst h <;> rfl

lemma getById_mapped (t u : RevTree) (adj : Rev → Rev) (hu : u.revs = t.revs.map adj)
    (hsid : ∀ r, (adj r).selfId = r.selfId) (j : Nat) :
    getById u j = (getById t j).map adj := by
  unfold getById
  rw [hu]
  exact find?_map_selfId hsid j

lemma updateRev_mapped (t u : RevTree) (adj : Rev → Rev) (j : Nat) (g : Rev → Rev)
    (hu : u.revs = t.revs.map adj) (hsid : ∀ r, (adj r).selfId = r.selfId) :
    (updateRev u j g).revs =
      t.revs.map (fun r => if r.selfId = j then g (adj r) else adj r) := by
  unfold updateRev
  rw [hu, List.map_map]
  apply List.map_congr_left
  intro r _
  show (if (adj r).selfId == j then g (adj r) else adj r) = _
  rw [hsid r]
  by_cases h : r.selfId = j <;> simp [h]

lemma purgeStep_zero (u : RevTree) (i : Nat) :
    purgeStep u 0 i =
      (1, updateRev u i (fun r => { r with markedForPurge := true, parent := none })) := by
  unfold purgeStep
  rfl

lemma purgeStep_root (u : RevTree) (i : Nat) (y : Rev) (f : Nat)
    (hgu : getById u i = some y) (hp : y.parent = none) :
    purgeStep u (f + 1) i =
      (1, updateRev u i (fun r => { r with markedForPurge := true, parent := none })) := by
  unfold purgeStep
  simp only [hgu, Option.map_some', Option.getD_some, hp]

lemma purgeStep_stop (u : RevTree) (i : Nat) (y : Rev) (pid : Nat) (f : Nat)
    (hgu : getById u i = some y) (hp : y.parent = some pid)
    (hany : (updateRev u i
      (fun r => { r with markedForPurge := true, parent := none })).revs.any
      (fun r => r.parent == some pid) = true) :
    purgeStep u (f + 1) i =
      (1, updateRev u i (fun r => { r with markedForPurge := true, parent := none })) := by
  unfold purgeStep
  simp only [hgu, Option.map_some', Option.getD_some, hp, hany, if_true]

lemma purgeStep_go (u : RevTree) (i : Nat) (y : Rev) (pid : Nat) (f : Nat)
    (hgu : getById u i = some y) (hp : y.parent = some pid)
    (hany : (updateRev u i
      (fun r => { r with markedForPurge := true, parent := none })).revs.any
      (fun r => r.parent == some pid) = false) :
    purgeStep u (f + 1) i =
      ((purgeStep (updateRev (updateRev u i
          (fun r => { r with markedForPurge := true, parent := none })) pid
          (fun r => { r with leaf := true })) f pid).1 + 1,
       (purgeStep (updateRev (updateRev u i
          (fun r => { r with markedForPurge := true, parent := none })) pid
          (fun r => { r with leaf := true })) f pid).2) := by
  unfold purgeStep
  simp only [hgu, Option.map_some', Option.getD_some, hp, hany, Bool.false_eq_true,
    if_false]
  simp only [← purgeStep.eq_def]

lemma specPurgeChain_zero (t : RevTree) (i : Nat) : specPurgeChain t 0 i = [i] := rfl

lemma specPurgeChain_succ (t : RevTree) (f i : Nat) (x : Rev)
    (hgx : getById t i = some x) :
    specPurgeChain t (f + 1) i =
      i :: (match x.parent with
        | none => []
        | some pid => if onlyChildOf t i pid then specPurgeChain t f pid else []) := by
  unfold specPurgeChain
  simp only [hgx, Option.map_some', Option.getD_some]
  simp only [← specPurgeChain.eq_def]

lemma unlinkAdj_props (adj : Rev → Rev) (i : Nat) (D : List Nat)
    (hsid : ∀ r : Rev, (adj r).selfId = r.selfId)
    (hconf : ∀ r : Rev, (adj r).isConflict = r.isConflict)
    (hmkIn : ∀ r : Rev, r.selfId ∈ D → (adj r).markedForPurge = true)
    (hmkOut : ∀ r : Rev, r.selfId ∉ D → (adj r).markedForPurge = r.markedForPurge)
    (hparIn : ∀ r : Rev, r.selfId ∈ D → (adj r).parent = none)
    (hparOut : ∀ r : Rev, r.selfId ∉ D → (adj r).parent = r.parent) :
    (∀ r : Rev, ((fun r : Rev => if r.selfId = i
      then { adj r with markedForPurge := true, parent := none } else adj r) r).selfId
      = r.selfId) ∧
    (∀ r : Rev, ((fun r : Rev => if r.selfId = i
      then { adj r with markedForPurge := true, parent := none } else adj r) r).isConflict
      = r.isConflict) ∧
    (∀ r : Rev, r.selfId ∈ i :: D →
      ((fun r : Rev => if r.selfId = i
        then { adj r with markedForPurge := true, parent := none } else adj r)
        r).markedForPurge = true) ∧
    (∀ r : Rev, r.selfId ∉ i :: D →
      ((fun r : Rev => if r.selfId = i
        then { adj r with markedForPurge := true, parent := none } else adj r)
        r).markedForPurge = r.markedForPurge) ∧
    (∀ r : Rev, r.selfId ∈ i :: D →
      ((fun r : Rev => if r.selfId = i
        then { adj r with markedForPurge := true, parent := none } else adj r)
        r).parent = none) ∧
    (∀ r : Rev, r.selfId ∉ i :: D →
      ((fun r : Rev => if r.selfId = i
        then { adj r with markedForPurge := true, parent := none } else adj r)
        r).parent = r.parent) := by
  refine ⟨?_, ?_, ?_, ?_, ?_, ?_⟩
  · intro r
    by_cases h : r.selfId = i <;> simp [h, hsid r]
  · intro r
    by_cases h : r.selfId = i <;> simp [h, hconf r]
  · intro r hr
    by_cases h : r.selfId = i
    · simp [h]
    · have hD : r.selfId ∈ D := by
        rcases List.mem_cons.mp hr with h1 | h1
        · exact absurd h1 h
        · exact h1
      simp [h, hmkIn r hD]
  · intro r hr
    have h1 : r.selfId ≠ i := fun he => hr (by simp [he])
    have h2 : r.selfId ∉ D := fun he => hr (by simp [he])
    simp [h1, hmkOut r h2]
  · intro r hr
    by_cases h : r.selfId = i
    · simp [h]
    · have hD : r.selfId ∈ D := by
        rcases List.mem_cons.mp hr with h1 | h1
        · exact absurd h1 h
        · exact h1
      simp [h, hparIn r hD]
  · intro r hr
    have h1 : r.selfId ≠ i := fun he => hr (by simp [he])
    have h2 : r.selfId ∉ D := fun he => hr (by simp [he])
    simp [h1, hparOut r h2]

lemma leafAdj_props (adj : Rev → Rev) (j : Nat) (D : List Nat)
    (hsid : ∀ r : Rev, (adj r).selfId = r.selfId)
    (hconf : ∀ r : Rev, (adj r).isConflict = r.isConflict)
    (hmkIn : ∀ r : Rev, r.selfId ∈ D → (adj r).markedForPurge = true)
    (hmkOut : ∀ r : Rev, r.selfId ∉ D → (adj r).markedForPurge = r.markedForPurge)
    (hparIn : ∀ r : Rev, r.selfId ∈ D → (adj r).parent = none)
    (hparOut : ∀ r : Rev, r.selfId ∉ D → (adj r).parent = r.parent) :
    (∀ r : Rev, ((fun r : Rev => if r.selfId = j
      then { adj r with leaf := true } else adj r) r).selfId = r.selfId) ∧
    (∀ r : Rev, ((fun r : Rev => if r.selfId = j
      then { adj r with leaf := true } else adj r) r).isConflict = r.isConflict) ∧
    (∀ r : Rev, r.selfId ∈ D →
      ((fun r : Rev => if r.selfId = j
        then { adj r with leaf := true } else adj r) r).markedForPurge = true) ∧
    (∀ r : Rev, r.selfId ∉ D →
      ((fun r : Rev => if r.selfId = j
        then { adj r with leaf := true } else adj r) r).markedForPurge
        = r.markedForPurge) ∧
    (∀ r : Rev, r.selfId ∈ D →
      ((fun r : Rev => if r.selfId = j
        then { adj r with leaf := true } else adj r) r).parent = none) ∧
    (∀ r : Rev, r.selfId ∉ D →
      ((fun r : Rev => if r.selfId = j
        then { adj r with leaf := true } else adj r) r).parent = r.parent) := by
  refine ⟨?_, ?_, ?_, ?_, ?_, ?_⟩
  · intro r
    by_cases h : r.selfId = j <;> simp [h, hsid r]
  · intro r
    by_cases h : r.selfId = j <;> simp [h, hconf r]
  · intro r hr
    by_cases h : r.selfId = j <;> simp [h, hmkIn r hr]
  · intro r hr
    by_cases h : r.selfId = j <;> simp [h, hmkOut r hr]
  · intro r hr
    by_cases h : r.selfId = j <;> simp [h, hparIn r hr]
  · intro r hr
    by_cases h : r.selfId = j <;> simp [h, hparOut r hr]

lemma purge_any_bridge (t : RevTree) (hids : wfIds t) (hpar : wfParent t)
    (i : Nat) (x : Rev) (pid : Nat) (D : List Nat) (adj : Rev → Rev) (u : RevTree)
    (hu : u.revs = t.revs.map adj)
    (hsid : ∀ r : Rev, (adj r).selfId = r.selfId)
    (hparIn : ∀ r : Rev, r.selfId ∈ D → (adj r).parent = none)
    (hparOut : ∀ r : Rev, r.selfId ∉ D → (adj r).parent = r.parent)
    (hgx : getById t i = some x) (hp : x.parent = some pid)
    (hcur : ∀ k ∈ D, genOf t i < genOf t k) :
    ((updateRev u i
        (fun r => { r with markedForPurge := true, parent := none })).revs.any
        (fun r => r.parent == some pid))
      = !onlyChildOf t i pid := by
  obtain ⟨hxmem, hxid⟩ := getById_some t i x hgx
  obtain ⟨p, hgp, hgen⟩ := hpar x hxmem pid hp
  have ht1 := updateRev_mapped t u adj i
    (fun r => { r with markedForPurge := true, parent := none }) hu hsid
  cases ho : onlyChildOf t i pid
  · unfold onlyChildOf at ho
    rw [List.all_eq_false] at ho
    obtain ⟨c, hc, hcp0⟩ := ho
    have hcp : c.parent = some pid ∧ c.selfId ≠ i := by
      simpa using hcp0
    have hcD : c.selfId ∉ D := by
      intro hin
      obtain ⟨p2, hgp2, hgen2⟩ := hpar c hc pid hcp.1
      rw [hgp] at hgp2
      injection hgp2 with hpe
      have hgc : genOf t c.selfId = c.revID.gen := by
        unfold genOf
        rw [getById_eq_of_mem hids hc]
        rfl
      have hgi : genOf t i = x.revID.gen := by
        unfold genOf
        rw [hgx]
        rfl
      have hlt := hcur c.selfId hin
      rw [hgc, hgi] at hlt
      rw [← hpe] at hgen2
      omega
    simp only [Bool.not_false]
    rw [List.any_eq_true]
    refine ⟨(fun r : Rev => if r.selfId = i
      then { adj r with markedForPurge := true, parent := none } else adj r) c, ?_, ?_⟩
    · rw [ht1]
      exact List.mem_map.mpr ⟨c, hc, rfl⟩
    · simp [hcp.2, hparOut c hcD, hcp.1]
  · unfold onlyChildOf at ho
    rw [List.all_eq_true] at ho
    simp only [Bool.not_true]
    rw [List.any_eq_false]
    intro r' hr'
    rw [ht1] at hr'
    rw [List.mem_map] at hr'
    obtain ⟨r, hr, rfl⟩ := hr'
    by_cases hri : r.selfId = i
    · simp [hri]
    · by_cases hrD : r.selfId ∈ D
      · simp [hri, hparIn r hrD]
      · have hro : r.parent ≠ some pid ∨ r.selfId = i := by simpa using ho r hr
        rcases hro with h1 | h1
        · simp [hri, hparOut r hrD, h1]
        · exact absurd h1 hri

lemma purgeStep_spec (t : RevTree) (hids : wfIds t) (hpar : wfParent t) :
    ∀ (fuel : Nat) (i : Nat) (x : Rev) (D : List Nat) (adj : Rev → Rev) (u : RevTree),
      u.revs = t.revs.map adj →
      u.sorted = t.sorted →
      (∀ r : Rev, (adj r).selfId = r.selfId) →
      (∀ r : Rev, (adj r).isConflict = r.isConflict) →
      (∀ r : Rev, r.selfId ∈ D → (adj r).markedForPurge = true) →
      (∀ r : Rev, r.selfId ∉ D → (adj r).markedForPurge = r.markedForPurge) →
      (∀ r : Rev, r.selfId ∈ D → (adj r).parent = none) →
      (∀ r : Rev, r.selfId ∉ D → (adj r).parent = r.parent) →
      getById t i = some x →
      (∀ k ∈ D, genOf t i < genOf t k) →
      ∃ adj2 : Rev → Rev,
        (purgeStep u fuel i).1 = (specPurgeChain t fuel i).length ∧
        (purgeStep u fuel i).2.revs = t.revs.map adj2 ∧
        (purgeStep u fuel i).2.sorted = t.sorted ∧
        (∀ r : Rev, (adj2 r).selfId = r.selfId) ∧
        (∀ r : Rev, (adj2 r).isConflict = r.isConflict) ∧
        (∀ r : Rev, r.selfId ∈ specPurgeChain t fuel i ++ D →
          (adj2 r).markedForPurge = true) ∧
        (∀ r : Rev, r.selfId ∉ specPurgeChain t fuel i ++ D →
          (adj2 r).markedForPurge = r.markedForPurge) ∧
        (∀ r : Rev, r.selfId ∈ specPurgeChain t fuel i ++ D → (adj2 r).parent = none) ∧
        (∀ r : Rev, r.selfId ∉ specPurgeChain t fuel i ++ D →
          (adj2 r).parent = r.parent) := by
  intro fuel
  induction fuel with
  | zero =>
    intro i x D adj u hu hus hsid hconf hmkIn hmkOut hparIn hparOut hgx hcur
    obtain ⟨ha1, ha2, ha3, ha4, ha5, ha6⟩ :=
      unlinkAdj_props adj i D hsid hconf hmkIn hmkOut hparIn hparOut
    refine ⟨fun r : Rev => if r.selfId = i
      then { adj r with markedForPurge := true, parent := none } else adj r,
      ?_, ?_, ?_, ha1, ha2, ?_, ?_, ?_, ?_⟩
    · simp [purgeStep_zero, specPurgeChain_zero]
    · rw [purgeStep_zero]
      exact updateRev_mapped t u adj i
        (fun r => { r with markedForPurge := true, parent := none }) hu hsid
    · rw [purgeStep_zero]
      exact hus
    · rw [specPurgeChain_zero]
      exact ha3
    · rw [specPurgeChain_zero]
      exact ha4
    · rw [specPurgeChain_zero]
      exact ha5
    · rw [specPurgeChain_zero]
      exact ha6
  | succ f ih =>
    intro i x D adj u hu hus hsid hconf hmkIn hmkOut hparIn hparOut hgx hcur
    have hiD : i ∉ D := fun hin => absurd (hcur i hin) (lt_irrefl _)
    obtain ⟨hxmem, hxid⟩ := getById_some t i x hgx
    have hgu : getById u i = some (adj x) := by
      rw [getById_mapped t u adj hu hsid, hgx]
      rfl
    have hadjp : (adj x).parent = x.parent := by
      apply hparOut
      rw [hxid]
      exact hiD
    obtain ⟨ha1, ha2, ha3, ha4, ha5, ha6⟩ :=
      unlinkAdj_props adj i D hsid hconf hmkIn hmkOut hparIn hparOut
    cases hp : x.parent with
    | none =>
      have heq := purgeStep_root u i (adj x) f hgu (by rw [hadjp]; exact hp)
      have hspec : specPurgeChain t (f + 1) i = [i] := by
        rw [specPurgeChain_succ t f i x hgx, hp]
      refine ⟨fun r : Rev => if r.selfId = i
        then { adj r with markedForPurge := true, parent := none } else adj r,
        ?_, ?_, ?_, ha1, ha2, ?_, ?_, ?_, ?_⟩
      · simp [heq, hspec]
      · rw [heq]
        exact updateRev_mapped t u adj i
          (fun r => { r with markedForPurge := true, parent := none }) hu hsid
      · rw [heq]
        exact hus
      · rw [hspec]
        exact ha3
      · rw [hspec]
        exact ha4
      · rw [hspec]
        exact ha5
      · rw [hspec]
        exact ha6
    | some pid =>
      obtain ⟨p, hgp, hgen⟩ := hpar x hxmem pid hp
      obtain ⟨hpmem, hpid⟩ := getById_some t pid p hgp
      have hgeni : genOf t i = x.revID.gen := by
        unfold genOf
        rw [hgx]
        rfl
      have hgenpid : genOf t pid = p.revID.gen := by
        unfold genOf
        rw [hgp]
        rfl
      have hbridge := purge_any_bridge t hids hpar i x pid D adj u hu hsid
        hparIn hparOut hgx hp hcur
      cases ho : onlyChildOf t i pid with
      | false =>
        have hany : ((updateRev u i
            (fun r => { r with markedForPurge := true, parent := none })).revs.any
            (fun r => r.parent == some pid)) = true := by
          rw [hbridge, ho]
          rfl
        have heq := purgeStep_stop u i (adj x) pid f hgu (by rw [hadjp]; exact hp) hany
        have hspec : specPurgeChain t (f + 1) i = [i] := by
          rw [specPurgeChain_succ t f i x hgx, hp]
          simp [ho]
        refine ⟨fun r : Rev => if r.selfId = i
          then { adj r with markedForPurge := true, parent := none } else adj r,
          ?_, ?_, ?_, ha1, ha2, ?_, ?_, ?_, ?_⟩
        · simp [heq, hspec]
        · rw [heq]
          exact updateRev_mapped t u adj i
            (fun r => { r with markedForPurge := true, parent := none }) hu hsid
        · rw [heq]
          exact hus
        · rw [hspec]
          exact ha3
        · rw [hspec]
          exact ha4
        · rw [hspec]
          exact ha5
        · rw [hspec]
          exact ha6
      | true =>
        have hany : ((updateRev u i
            (fun r => { r with markedForPurge := true, parent := none })).revs.any
            (fun r => r.parent == some pid)) = false := by
          rw [hbridge, ho]
          rfl
        have heq := purgeStep_go u i (adj x) pid f hgu (by rw [hadjp]; exact hp) hany
        have hspec : specPurgeChain t (f + 1) i = i :: specPurgeChain t f pid := by
          rw [specPurgeChain_succ t f i x hgx, hp]
          simp [ho]
        have hpidnei : pid ≠ i := by
          intro he
          rw [he, hgx] at hgp
          injection hgp with hpe
          rw [← hpe] at hgen
          omega
        have hpidD : pid ∉ D := by
          intro hin
          have hlt := hcur pid hin
          rw [hgeni, hgenpid] at hlt
          omega
        have ht1 := updateRev_mapped t u adj i
          (fun r => { r with markedForPurge := true, parent := none }) hu hsid
        have ht2 := updateRev_mapped t
          (updateRev u i (fun r => { r with markedForPurge := true, parent := none }))
          (fun r : Rev => if r.selfId = i
            then { adj r with markedForPurge := true, parent := none } else adj r)
          pid (fun r => { r with leaf := true }) ht1 ha1
        obtain ⟨hb1, hb2, hb3, hb4, hb5, hb6⟩ :=
          leafAdj_props (fun r : Rev => if r.selfId = i
            then { adj r with markedForPurge := true, parent := none } else adj r)
            pid (i :: D) ha1 ha2 ha3 ha4 ha5 ha6
        have hcur2 : ∀ k ∈ i :: D, genOf t pid < genOf t k := by
          intro k hk
          rcases List.mem_cons.mp hk with h1 | h1
          · rw [h1, hgeni, hgenpid]
            omega
          · calc genOf t pid < genOf t i := by
                  rw [hgeni, hgenpid]
                  omega
              _ < genOf t k := hcur k h1
        have hrec := ih pid p (i :: D) _ _ ht2 hus hb1 hb2 hb3 hb4 hb5 hb6 hgp hcur2
        obtain ⟨adj2, hc1, hc2, hc3, hc4, hc5, hc6, hc7, hc8, hc9⟩ := hrec
        refine ⟨adj2, ?_, ?_, ?_, hc4, hc5, ?_, ?_, ?_, ?_⟩
        · rw [heq, hspec]
          simp [hc1]
        · rw [heq]
          exact hc2
        · rw [heq]
          exact hc3
        · rw [hspec]
          intro r hr
          apply hc6
          simp only [List.mem_append, List.mem_cons] at hr ⊢
          tauto
        · rw [hspec]
          intro r hr
          apply hc7
          simp only [List.mem_append, List.mem_cons] at hr ⊢
          tauto
        · rw [hspec]
          intro r hr
          apply hc8
          simp only [List.mem_append, List.mem_cons] at hr ⊢
          tauto
        · rw [hspec]
          intro r hr
          apply hc9
          simp only [List.mem_append, List.mem_cons] at hr ⊢
          tauto

lemma conflictClosed_mapped (t u : RevTree) (adj : Rev → Rev)
    (hu : u.revs = t.revs.map adj)
    (hsid : ∀ r : Rev, (adj r).selfId = r.selfId)
    (hconf : ∀ r : Rev, (adj r).isConflict = r.isConflict)
    (hparw : ∀ (r : Rev) (pid : Nat), (adj r).parent = some pid → r.parent = some pid)
    (hc : conflictClosed t) : conflictClosed u := by
  intro r' hr' pid hp' p' hgp' hpc'
  rw [hu, List.mem_map] at hr'
  obtain ⟨r, hr, rfl⟩ := hr'
  rw [getById_mapped t u adj hu hsid pid] at hgp'
  cases hgt : getById t pid with
  | none =>
    rw [hgt] at hgp'
    simp at hgp'
  | some p =>
    rw [hgt] at hgp'
    have hpp : adj p = p' := by
      simpa using hgp'
    rw [hconf r]
    refine hc r hr pid (hparw r pid hp') p hgt ?_
    rw [← hpp, hconf p] at hpc'
    exact hpc'

lemma conflictClosed_compact (u : RevTree) (hids : wfIds u)
    (hc : conflictClosed u) : conflictClosed (compact u) := by
  intro r' hr' pid hp' p' hgp' hpc'
  have hr2 : r' ∈ u.revs.filter (fun r => !r.markedForPurge) := hr'
  have hr3 : r' ∈ u.revs := List.mem_of_mem_filter hr2
  obtain ⟨hpmem, hpid⟩ := getById_some (compact u) pid p' hgp'
  have hpmem2 : p' ∈ u.revs.filter (fun r => !r.markedForPurge) := hpmem
  have hpmem3 : p' ∈ u.revs := List.mem_of_mem_filter hpmem2
  have hgu : getById u pid = some p' := by
    have h := getById_eq_of_mem hids hpmem3
    rwa [hpid] at h
  exact hc r' hr3 pid hp' p' hgu hpc'

lemma ccfFn_selfId (ids : List Nat) (r : Rev) :
    ((fun r : Rev => if r.selfId ∈ ids then { r with isConflict := false } else r)
      r).selfId = r.selfId := by
  by_cases h : r.selfId ∈ ids <;> simp [h]

lemma ccf_getById (u : RevTree) (ids : List Nat) (j : Nat) :
    getById (clearConflictFlags u ids) j = (getById u j).map
      (fun r : Rev => if r.selfId ∈ ids then { r with isConflict := false } else r) := by
  unfold getById clearConflictFlags
  exact find?_map_selfId (ccfFn_selfId ids) j

lemma chainFrom_ccf (u : RevTree) (ids : List Nat) :
    ∀ (f : Nat) (p : Option Nat),
      chainFrom (clearConflictFlags u ids) f p = chainFrom u f p := by
  intro f
  induction f with
  | zero =>
    intro p
    cases p <;> simp [chainFrom]
  | succ f ihf =>
    intro p
    cases p with
    | none => simp [chainFrom_none]
    | some j =>
      cases hg : getById u j with
      | none =>
        rw [show chainFrom u (f + 1) (some j) = [] from by simp [chainFrom, hg]]
        have h2 : getById (clearConflictFlags u ids) j = none := by
          rw [ccf_getById, hg]
          rfl
        simp [chainFrom, h2]
      | some y =>
        have hcg : getById (clearConflictFlags u ids) j =
            some (if y.selfId ∈ ids then { y with isConflict := false } else y) := by
          rw [ccf_getById, hg]
          rfl
        rw [chainFrom_cons hcg (Nat.succ_pos f), chainFrom_cons hg (Nat.succ_pos f)]
        have hpp : (if y.selfId ∈ ids then { y with isConflict := false } else y).parent
            = y.parent := by
          by_cases h : y.selfId ∈ ids <;> simp [h]
        rw [hpp]
        simp only [Nat.succ_sub_one]
        rw [ihf y.parent]

lemma mem_of_head (l : List Rev) (a : Rev) (h : l.head? = some a) : a ∈ l := by
  cases l with
  | nil => simp at h
  | cons b l =>
    have hb : b = a := by simpa using h
    subst hb
    exact List.mem_cons_self _ _

lemma ccr_props (u : RevTree) (hidsu : wfIds u) (hcu : conflictClosed u) :
    ((checkForResolvedConflict u).sorted = u.sorted) ∧
    (∀ i, (getById (checkForResolvedConflict u) i).isSome = (getById u i).isSome) ∧
    ((checkForResolvedConflict u).sorted = true →
      ∀ r0, (checkForResolvedConflict u).revs.head? = some r0 →
        ∀ id ∈ chainFrom (checkForResolvedConflict u)
            (checkForResolvedConflict u).revs.length (some r0.selfId),
          ((getById (checkForResolvedConflict u) id).map
            (fun r => r.isConflict)).getD false = false) := by
  unfold checkForResolvedConflict
  cases hh : u.revs.head? with
  | none =>
    simp only [hh]
    refine ⟨trivial, fun i => trivial, ?_⟩
    intro hs r0 h0 id hid
    exact absurd h0 (by simp)
  | some q0 =>
    simp only [hh]
    by_cases hcif : (u.sorted && q0.isConflict) = true
    · rw [if_pos hcif]
      refine ⟨rfl, ?_, ?_⟩
      · intro i
        rw [ccf_getById]
        cases hgi : getById u i <;> rfl
      · intro hs r0 h0 id hid
        have hh2 : (clearConflictFlags u
            (chainFrom u u.revs.length (some q0.selfId))).revs.head? =
            some ((fun r : Rev =>
              if r.selfId ∈ chainFrom u u.revs.length (some q0.selfId)
              then { r with isConflict := false } else r) q0) := by
          show (u.revs.map _).head? = _
          rw [List.head?_map, hh]
          rfl
        rw [hh2] at h0
        have h0' : ((fun r : Rev =>
            if r.selfId ∈ chainFrom u u.revs.length (some q0.selfId)
            then { r with isConflict := false } else r) q0) = r0 := by
          injection h0
        have hr0id : r0.selfId = q0.selfId := by
          rw [← h0']
          exact ccfFn_selfId _ q0
        have hlen : (clearConflictFlags u
            (chainFrom u u.revs.length (some q0.selfId))).revs.length
            = u.revs.length := by
          show (u.revs.map _).length = _
          exact List.length_map _ _
        rw [chainFrom_ccf, hlen, hr0id] at hid
        rw [ccf_getById]
        obtain ⟨z, hz, hzmem, hzid⟩ :=
          chainFrom_mem_lookup u u.revs.length (some q0.selfId) id hid
        rw [hz]
        simp [hzid, hid]
    · rw [if_neg hcif]
      refine ⟨rfl, fun i => rfl, ?_⟩
      intro hs r0 h0 id hid
      rw [hh] at h0
      have hr0 : q0 = r0 := by
        injection h0
      subst hr0
      have hq0 : q0.isConflict = false := by
        cases hcc : q0.isConflict
        · rfl
        · exact absurd (by simp [hs, hcc] : (u.sorted && q0.isConflict) = true) hcif
      have hmem0 : q0 ∈ u.revs := mem_of_head u.revs q0 (by rw [hh])
      have hg0 : getById u q0.selfId = some q0 := getById_eq_of_mem hidsu hmem0
      exact chain_unconflicted u hcu u.revs.length q0.selfId q0 hg0 hq0 id hid

/-- C6: `purge(leafID)` on a well-formed, initially unmarked tree removes
exactly the revisions of the orphan chain — the named leaf, then each ancestor
whose only child was the previously purged revision, stopping at the first
still-referenced ancestor — and returns their number; afterwards the conflict
state is re-checked: whenever the resulting tree is sorted, the winning
revision's whole lineage carries no IsConflict flag.  If `leafID` is absent or
names a non-leaf revision the call returns 0 and leaves the tree unchanged. -/
theorem c6_purge (t : RevTree) (leafID : RevID)
    (hids : wfIds t) (hpar : wfParent t) (hclosed : conflictClosed t)
    (hclean : ∀ r ∈ t.revs, r.markedForPurge = false) :
    (getByRevID t leafID = none → RevTree.purge t leafID = (0, t)) ∧
    (∀ x, getByRevID t leafID = some x → x.leaf = false →
      RevTree.purge t leafID = (0, t)) ∧
    (∀ x, getByRevID t leafID = some x → x.leaf = true →
      (RevTree.purge t leafID).1
          = (specPurgeChain t t.revs.length x.selfId).length ∧
      (∀ i, ((getById (RevTree.purge t leafID).2 i).isSome = true ↔
        ((getById t i).isSome = true ∧
          i ∉ specPurgeChain t t.revs.length x.selfId))) ∧
      (RevTree.purge t leafID).2.sorted = t.sorted ∧
      ((RevTree.purge t leafID).2.sorted = true →
        ∀ r0, (RevTree.purge t leafID).2.revs.head? = some r0 →
          ∀ id ∈ chainFrom (RevTree.purge t leafID).2
              (RevTree.purge t leafID).2.revs.length (some r0.selfId),
            ((getById (RevTree.purge t leafID).2 id).map
              (fun r => r.isConflict)).getD false = false)) := by
  refine ⟨?_, ?_, ?_⟩
  · intro hn
    unfold RevTree.purge
    rw [hn]
  · intro x hx hxleaf
    unfold RevTree.purge
    rw [hx]
    simp [hxleaf]
  · intro x hx hxleaf
    have hxmem : x ∈ t.revs := List.mem_of_find?_eq_some hx
    have hgx : getById t x.selfId = some x := getById_eq_of_mem hids hxmem
    have hpurge : RevTree.purge t leafID =
        ((purgeStep t t.revs.length x.selfId).1,
         checkForResolvedConflict
           (compact (purgeStep t t.revs.length x.selfId).2)) := by
      unfold RevTree.purge
      rw [hx]
      simp [hxleaf]
    obtain ⟨adj2, hc1, hc2, hc3, hc4, hc5, hc6, hc7, hc8, hc9⟩ :=
      purgeStep_spec t hids hpar t.revs.length x.selfId x [] id t
        (List.map_id t.revs).symm rfl (fun r => rfl) (fun r => rfl)
        (by intro r h; simp at h) (fun r _ => rfl)
        (by intro r h; simp at h) (fun r _ => rfl) hgx
        (by intro k hk; simp at hk)
    have hids2 : wfIds (purgeStep t t.revs.length x.selfId).2 := by
      have hw := wfIds_mapped t adj2 hc4 hids
      unfold wfIds at hw ⊢
      rw [hc2]
      exact hw
    have hids3 : wfIds (compact (purgeStep t t.revs.length x.selfId).2) :=
      wfIds_compact _ hids2
    have hparw : ∀ (r : Rev) (pid : Nat), (adj2 r).parent = some pid →
        r.parent = some pid := by
      intro r pid h
      by_cases hin : r.selfId ∈ specPurgeChain t t.revs.length x.selfId ++ []
      · rw [hc8 r hin] at h
        exact absurd h (by simp)
      · rw [hc9 r hin] at h
        exact h
    have hclosed2 : conflictClosed (purgeStep t t.revs.length x.selfId).2 :=
      conflictClosed_mapped t _ adj2 hc2 hc4 hc5 hparw hclosed
    have hclosed3 : conflictClosed (compact (purgeStep t t.revs.length x.selfId).2) :=
      conflictClosed_compact _ hids2 hclosed2
    obtain ⟨hccr1, hccr2, hccr3⟩ := ccr_props
      (compact (purgeStep t t.revs.length x.selfId).2) hids3 hclosed3
    have hmem3 : ∀ i,
        ((getById (compact (purgeStep t t.revs.length x.selfId).2) i).isSome = true ↔
          ((getById t i).isSome = true ∧
            i ∉ specPurgeChain t t.revs.length x.selfId)) := by
      intro i
      cases hg : getById t i with
      | none =>
        have h2 : getById (purgeStep t t.revs.length x.selfId).2 i = none := by
          rw [getById_mapped t _ adj2 hc2 hc4, hg]
          rfl
        rw [compact_getById_none _ _ h2]
        simp [hg]
      | some r =>
        have h2 : getById (purgeStep t t.revs.length x.selfId).2 i = some (adj2 r) := by
          rw [getById_mapped t _ adj2 hc2 hc4, hg]
          rfl
        obtain ⟨hrmem, hrid⟩ := getById_some t i r hg
        by_cases hin : i ∈ specPurgeChain t t.revs.length x.selfId
        · have hmk : (adj2 r).markedForPurge = true := by
            apply hc6
            rw [hrid, List.append_nil]
            exact hin
          rw [compact_getById_marked _ hids2 i (adj2 r) h2 hmk]
          simp [hin]
        · have hmk : (adj2 r).markedForPurge = false := by
            rw [hc7 r (by rw [hrid, List.append_nil]; exact hin)]
            exact hclean r hrmem
          rw [compact_getById_unmarked _ hids2 i (adj2 r) h2 hmk]
          simp [hg, hin]
    have hsort3 : (compact (purgeStep t t.revs.length x.selfId).2).sorted
        = t.sorted := hc3
    refine ⟨?_, ?_, ?_, ?_⟩
    · rw [hpurge]
      exact hc1
    · intro i
      rw [hpurge]
      have hb := hccr2 i
      constructor
      · intro h
        apply (hmem3 i).mp
        rw [← hb]
        exact h
      · intro h
        show (getById (checkForResolvedConflict
          (compact (purgeStep t t.revs.length x.selfId).2)) i).isSome = true
        rw [hb]
        exact (hmem3 i).mpr h
    · rw [hpurge]
      show (checkForResolvedConflict
        (compact (purgeStep t t.revs.length x.selfId).2)).sorted = t.sorted
      rw [hccr1, hsort3]
    · rw [hpurge]
      exact hccr3

/-- C6 witness: `c6_purge` applied to the two-revision tree `treeA2`, purging
its leaf 2-b: the count equals the length of the spec-side purge chain. -/
theorem c6_purge_witness :
    (RevTree.purge treeA2 ⟨2, [2]⟩).1 =
      (specPurgeChain treeA2 treeA2.revs.length 1).length := by
  have hids : wfIds treeA2 := by
    unfold wfIds
    decide
  have hpar : wfParent treeA2 := by
    intro r hr pid hp
    simp only [treeA2, List.mem_cons, List.not_mem_nil, or_false] at hr
    rcases hr with h | h
    · subst h
      simp [mkRev] at hp
    · subst h
      have hpid : pid = 0 := by
        injection hp with h0
        omega
      subst hpid
      exact ⟨mkRev 0 1 [1] false none, by decide, by decide⟩
  have hclosed : conflictClosed treeA2 := by
    intro r hr pid hp p hgp hpc
    simp only [treeA2, List.mem_cons, List.not_mem_nil, or_false] at hr
    rcases hr with h | h
    · subst h
      simp [mkRev] at hp
    · subst h
      have hpid : pid = 0 := by
        injection hp with h0
        omega
      subst hpid
      rw [show getById treeA2 0 = some (mkRev 0 1 [1] false none) from by decide] at hgp
      injection hgp with hpe
      rw [← hpe] at hpc
      simp [mkRev] at hpc
  have hclean : ∀ r ∈ treeA2.revs, r.markedForPurge = false := by
    intro r hr
    simp only [treeA2, List.mem_cons, List.not_mem_nil, or_false] at hr
    rcases hr with h | h <;> subst h <;> rfl
  exact ((c6_purge treeA2 ⟨2, [2]⟩ hids hpar hclosed hclean).2.2
    (Rev.mk 1 ⟨2, [2]⟩ [9] 0 true false false true false false false false (some 0))
    (by decide) rfl).1

/-- C1 witness: inserting a zero-generation revision ID into `treeA` is
rejected with status 400 and leaves the tree unchanged. -/
theorem c1_insert_cases_witness :
    RevTree.insert treeA ⟨0, [9]⟩ [] {} none false = (none, 400, treeA) :=
  (c1_insert_cases treeA ⟨0, [9]⟩ [] {} false).1 rfl none

end LiteCore
